import Mathlib

/-!
Verification development for the vim-geeknote explorer module
(plugin/explorer.py).

The module renders notebooks, tags and notes as a collapsible outline in a
text buffer and synchronizes user edits back to a remote note store.  We give
a shallow embedding of its data model and operations:

* python objects become records; object identity becomes a numeric node id
  into an association-list store;
* python dicts (registry, instanceMap) become association lists;
* text lines are lists of characters; the two regular expressions of the
  module are compiled, by hand, into scanning functions that implement the
  greedy backtracking semantics of the python re engine on these patterns;
* calls into the remote service and into the host editor are opaque: remote
  query results are oracle parameters, and emitted calls are collected in
  traces where a claim needs them;
* a python exception (attribute access on None, missing attribute) is an
  error value of type PyErr.

Buffer lines come from a vim buffer and therefore never contain a newline;
the dot of the regular expressions is modelled as matching any character.
-/

/-- Whitespace class of the python 2 re module and of str.strip for byte
strings: space, tab, newline, carriage return, vertical tab, form feed. -/
def pySpace (c : Char) : Bool :=
  c = ' ' || c = '\t' || c = '\n' || c = '\r' || c = '\x0b' || c = '\x0c'

/-- python str.strip: drop whitespace from both ends. -/
def pyStrip (l : List Char) : List Char :=
  ((l.dropWhile pySpace).reverse.dropWhile pySpace).reverse

/-- Lexicographic comparison of byte strings, as python 2 str comparison
orders them (by code unit, first difference decides, prefix is smaller). -/
def lexLe : List Char → List Char → Bool
  | [], _ => true
  | _ :: _, [] => false
  | a :: as, b :: bs => if a < b then true else if b < a then false else lexLe as bs
/-- Decimal digits of a natural number, as python str renders it. -/
def natDigits (n : Nat) : List Char :=
  if h : n < 10 then [Nat.digitChar n]
  else natDigits (n / 10) ++ [Nat.digitChar (n % 10)]
decreasing_by exact Nat.div_lt_self (Nat.pos_of_ne_zero (by omega)) (by omega)

/-- Numeric value of a decimal digit character. -/
def digitVal (c : Char) : Nat := c.toNat - 48

/-- Read back a digit string produced by natDigits. -/
def digitsToNat (l : List Char) : Nat :=
  l.foldl (fun acc c => acc * 10 + digitVal c) 0
/-- Association list lookup, first match wins; embeds a python dict read. -/
def alookup {β : Type} : List (List Char × β) → List Char → Option β
  | [], _ => none
  | (k, v) :: rest, k2 => if k2 = k then some v else alookup rest k2

/-- Association list update; embeds a python dict write (overwrite or add). -/
def aset {β : Type} : List (List Char × β) → List Char → β → List (List Char × β)
  | [], k, v => [(k, v)]
  | (k0, v0) :: rest, k, v => if k = k0 then (k, v) :: rest else (k0, v0) :: aset rest k v
/-- Natural-number-keyed association list lookup (node ids). -/
def nlookup {β : Type} : List (Nat × β) → Nat → Option β
  | [], _ => none
  | (k, v) :: rest, k2 => if k2 = k then some v else nlookup rest k2

/-- Natural-number-keyed association list update. -/
def nset {β : Type} : List (Nat × β) → Nat → β → List (Nat × β)
  | [], k, v => [(k, v)]
  | (k0, v0) :: rest, k, v => if k = k0 then (k, v) :: rest else (k0, v0) :: nset rest k v
/-! ### Data model: remote objects and explorer nodes -/

/-- A remote notebook object (guid and name). -/
structure Notebook where
  guid : List Char
  name : List Char
deriving DecidableEq

/-- A remote note object (guid, title and containing notebook). -/
structure Note where
  guid : List Char
  title : List Char
  notebookGuid : List Char
deriving DecidableEq

/-- A remote tag object (guid and name). -/
structure Tag where
  guid : List Char
  name : List Char
deriving DecidableEq

/-- The subclass-specific state of a node: NotebookNode carries its notebook,
a name copy and a loaded flag; NoteNode carries its note, a title copy and a
notebookGuid copy; TagNode carries its tag, a name copy and a loaded flag. -/
inductive NodeData : Type
  | notebookData (notebook : Notebook) (name : List Char) (loaded : Bool)
  | noteData (note : Note) (title : List Char) (notebookGuid : List Char)
  | tagData (tag : Tag) (name : List Char) (loaded : Bool)
deriving DecidableEq

/-- Common Node state plus the subclass data.  The row and prefWidth fields
of the source only drive cursor placement and window resizing, which are
host-editor effects outside this embedding, so they are not modelled. -/
structure NodeRec where
  parent : Option Nat
  children : List Nat
  indent : Nat
  key : List Char
  expanded : Bool
  data : NodeData
deriving DecidableEq

def NodeRec.isNote (n : NodeRec) : Bool :=
  match n.data with
  | .noteData _ _ _ => true
  | _ => false

def NodeRec.isNotebook (n : NodeRec) : Bool :=
  match n.data with
  | .notebookData _ _ _ => true
  | _ => false

/-- Node.getGuid as overridden by the three subclasses. -/
def NodeRec.getGuid (n : NodeRec) : List Char :=
  match n.data with
  | .notebookData nb _ _ => nb.guid
  | .noteData note _ _ => note.guid
  | .tagData t _ _ => t.guid

/-- The whole mutable state of the explorer module: the node store (object
identity becomes a numeric id, fresh ids come from nextId), the two module
level dicts, and the Explorer attributes the claims mention. -/
structure ExpState where
  nodes : List (Nat × NodeRec)
  registry : List (List Char × Nat)
  instanceMap : List (List Char × Nat)
  modifiedNodes : List Nat
  buffer : List (List Char)
  hasBuffer : Bool
  notebooks : List Nat
  tags : List Nat
  searchResults : List Nat
  selectedNode : Option Nat
  nextId : Nat
deriving DecidableEq

/-! ### Registry (module-level functions) -/

/-- The key string guid(instance) built by registerNode. -/
def mkKey (guid : List Char) (inst : Nat) : List Char :=
  guid ++ '(' :: (natDigits inst ++ [')'])

/-- registerNode: compute the next instance number for the guid of the node,
record it in instanceMap, store the key on the node and file the node in the
registry. -/
def registerNode (st : ExpState) (nid : Nat) : ExpState :=
  match nlookup st.nodes nid with
  | none => st
  | some node =>
    let guid := node.getGuid
    let inst :=
      match alookup st.instanceMap guid with
      | none => 0
      | some i => i + 1
    let key := mkKey guid inst
    { st with
      instanceMap := aset st.instanceMap guid inst
      nodes := nset st.nodes nid { node with key := key }
      registry := aset st.registry key nid }

/-- deleteNodes: registry.clear(); instanceMap is untouched. -/
def deleteNodes (st : ExpState) : ExpState :=
  { st with registry := [] }

/-- getNode: dictionary lookup returning None on a missing key. -/
def getNode (st : ExpState) (key : List Char) : Option Nat :=
  alookup st.registry key

/-- getNodeByInstance: look up the key guid(instance). -/
def getNodeByInstance (st : ExpState) (guid : List Char) (inst : Nat) : Option Nat :=
  getNode st (mkKey guid inst)

/-! ### The two regular expressions, compiled to scanning functions -/

/-- Scanner for the key pattern of Explorer.getNodeKey.  The argument is the
reversed line with its final right bracket removed; the accumulator collects,
in original order, the characters scanned so far.  It stops at the rightmost
left bracket that leaves a nonempty capture and has at least one character
before it, exactly where the greedy dot-plus of the pattern stops. -/
def keyScanAux : List Char → List Char → Option (List Char)
  | _, [] => none
  | acc, c :: rest =>
      if c = '[' then
        if acc ≠ [] ∧ rest ≠ [] then some acc else keyScanAux ('[' :: acc) rest
      else keyScanAux (c :: acc) rest

/-- Explorer.getNodeKey: match the line against the anchored pattern
dot-plus, literal left bracket, captured dot-plus, literal right bracket,
end; return the capture or None. -/
def getNodeKeyL (line : List Char) : Option (List Char) :=
  match line.reverse with
  | ']' :: rest => keyScanAux [] rest
  | _ => none

/-- Scanner for the note pattern of NoteNode.adapt.  The arguments are a flag
recording whether a right bracket was already seen (to the right, in original
order) and the reversed remainder of the line after the leading whitespace
run.  It stops at the rightmost occurrence of the two characters n and left
bracket that is followed, further right, by a right bracket; the capture is
everything before that occurrence. -/
def adaptScan : Bool → List Char → Option (List Char)
  | _, [] => none
  | seen, '[' :: 'n' :: rest => if seen then some rest.reverse else adaptScan seen rest
  | seen, c :: rest => adaptScan (seen || c = ']') rest

/-- The capture of the NoteNode.adapt pattern: leading whitespace, captured
title text, then the literal n, a bracketed key, anything.  None when the
line does not match. -/
def noteAdaptTitleOf (line : List Char) : Option (List Char) :=
  match line with
  | [] => none
  | c :: _ =>
    if pySpace c then
      match adaptScan false ((line.dropWhile pySpace).reverse) with
      | some grp => some grp
      | none => none
    else none

/-- NoteNode.adapt on a note whose stored title is the first argument:
returns the changed flag of the source together with the new stored title. -/
def noteAdapt (title : List Char) (line : List Char) : Bool × List Char :=
  match noteAdaptTitleOf line with
  | some grp =>
      let t := pyStrip grp
      if title ≠ t then (true, t) else (false, title)
  | none => (false, title)

/-- Occurrence test for the counted notebook pattern tail: a left
parenthesis, one or more digits, a right parenthesis, optional whitespace,
the literal N, a left bracket, and a right bracket somewhere further on. -/
def nbTestCount (l : List Char) : Bool :=
  match l with
  | '(' :: r1 =>
    let ds := r1.takeWhile Char.isDigit
    let r2 := r1.dropWhile Char.isDigit
    if ds = [] then false
    else
      match r2 with
      | ')' :: r3 =>
        (match r3.dropWhile pySpace with
         | 'N' :: '[' :: r5 => decide (']' ∈ r5)
         | _ => false)
      | _ => false
  | _ => false

/-- Occurrence test for the plain notebook pattern tail: the literal N, a
left bracket, and a right bracket somewhere further on. -/
def nbTestPlain (l : List Char) : Bool :=
  match l with
  | 'N' :: '[' :: r5 => decide (']' ∈ r5)
  | _ => false

/-- Largest index at which the test holds on the corresponding suffix; the
second argument is the absolute index of the head of the first. -/
def lastOccAux (test : List Char → Bool) : List Char → Nat → Option Nat
  | [], _ => none
  | l@(_ :: rest), i =>
    match lastOccAux test rest (i + 1) with
    | some j => some j
    | none => if test l then some i else none

/-- The capture of the NotebookNode.adapt pattern: one or more nonspace
characters, optional whitespace, the captured name, then (depending on
whether the node has children) a parenthesised note count, optional
whitespace, the literal N and a bracketed key.  The greedy engine takes the
longest nonspace prefix that still leaves a pattern occurrence to its right,
then the whitespace run, and captures up to the last occurrence. -/
def notebookAdaptParse (withCount : Bool) (line : List Char) : Option (List Char) :=
  match line with
  | [] => none
  | c :: _ =>
    if pySpace c then none
    else
      match lastOccAux (if withCount then nbTestCount else nbTestPlain) line 0 with
      | none => none
      | some i =>
        if i = 0 then none
        else
          let maxRun := (line.takeWhile (fun c => !pySpace c)).length
          let k := min maxRun i
          if k = i then some []
          else
            let w := ((line.drop k).takeWhile pySpace).length
            some ((line.drop (k + w)).take (i - (k + w)))

/-- NotebookNode.adapt on a node whose stored name is the first argument:
returns the changed flag together with the new stored name. -/
def notebookAdapt (name : List Char) (hasChildren : Bool) (line : List Char) :
    Bool × List Char :=
  match notebookAdaptParse hasChildren line with
  | some grp =>
      let nm := pyStrip grp
      if name ≠ nm then (true, nm) else (false, name)
  | none => (false, name)

/-- Dispatch of node.adapt on the dynamic type of the node: NoteNode and
NotebookNode override it, TagNode inherits the base method returning
False. -/
def nodeAdapt (n : NodeRec) (line : List Char) : Bool × NodeRec :=
  match n.data with
  | .noteData note title nbGuid =>
    let bt := noteAdapt title line
    (bt.1, { n with data := .noteData note bt.2 nbGuid })
  | .notebookData nb name loaded =>
    let bn := notebookAdapt name (decide (0 < n.children.length)) line
    (bn.1, { n with data := .notebookData nb bn.2 loaded })
  | .tagData _ _ _ => (false, n)

/-! ### Node tree operations -/

/-- Node.addChild: set the parent pointer of the child, then append it to
the children of the parent. -/
def addChildOp (st : ExpState) (pid cid : Nat) : ExpState :=
  match nlookup st.nodes cid with
  | none => st
  | some c =>
    let st1 := { st with nodes := nset st.nodes cid { c with parent := some pid } }
    match nlookup st1.nodes pid with
    | none => st1
    | some p =>
      { st1 with nodes := nset st1.nodes pid { p with children := p.children ++ [cid] } }

/-- Node.removeChild: remove the first occurrence of the child from the
children list, doing nothing when it is absent. -/
def removeChildOp (st : ExpState) (pid cid : Nat) : ExpState :=
  match nlookup st.nodes pid with
  | none => st
  | some p =>
    { st with nodes := nset st.nodes pid { p with children := p.children.erase cid } }

/-- NoteNode construction: the initial refresh copies title and notebookGuid
out of the note (the remote meta refresh is skipped because the stored title
is still None); the node starts closed with no parent or children. -/
def mkNoteNode (note : Note) (indent : Nat) : NodeRec :=
  { parent := none, children := [], indent := indent, key := [],
    expanded := false,
    data := .noteData note note.title note.notebookGuid }

/-- NotebookNode.addNote and TagNode.addNote: build a NoteNode one indent
level below the parent, register it, then add it as a child. -/
def addNoteTo (st : ExpState) (pid : Nat) (note : Note) : ExpState :=
  match nlookup st.nodes pid with
  | none => st
  | some p =>
    let nid := st.nextId
    let st1 := { st with
      nodes := nset st.nodes nid (mkNoteNode note (p.indent + 1)),
      nextId := st.nextId + 1 }
    let st2 := registerNode st1 nid
    addChildOp st2 pid nid

/-- The search words NotebookNode.getNotes sends to the service. -/
def nbQuery (name : List Char) : List Char :=
  "notebook:\"".toList ++ name ++ ['"']

/-- The search words TagNode.getNotes sends to the service. -/
def tagQuery (name : List Char) : List Char :=
  "tag:\"".toList ++ name ++ ['"']

def setNodeExpanded (st : ExpState) (nid : Nat) (b : Bool) : ExpState :=
  match nlookup st.nodes nid with
  | none => st
  | some n => { st with nodes := nset st.nodes nid { n with expanded := b } }

def setNodeLoaded (st : ExpState) (nid : Nat) : ExpState :=
  match nlookup st.nodes nid with
  | none => st
  | some n =>
    match n.data with
    | .notebookData nb name _ =>
      { st with nodes := nset st.nodes nid { n with data := .notebookData nb name true } }
    | .tagData t name _ =>
      { st with nodes := nset st.nodes nid { n with data := .tagData t name true } }
    | _ => st

/-- NotebookNode.expand: on the first expansion clear the children, fetch
the notes of the notebook from the service (the oracle), add a child note
node for each, and mark the node loaded; finally mark it expanded. -/
def notebookExpand (oracle : List Char → List Note) (st : ExpState) (nid : Nat) :
    ExpState :=
  match nlookup st.nodes nid with
  | none => st
  | some n =>
    match n.data with
    | .notebookData nb _ loaded =>
      let st1 :=
        if loaded then st
        else
          let st0 := { st with nodes := nset st.nodes nid { n with children := [] } }
          let st2 := (oracle (nbQuery nb.name)).foldl (fun s note => addNoteTo s nid note) st0
          setNodeLoaded st2 nid
      setNodeExpanded st1 nid true
    | _ => setNodeExpanded st nid true

/-- Stable sort of notes by title, as the python list sort used by
TagNode.expand produces it. -/
def sortNotesByTitle (l : List Note) : List Note :=
  List.insertionSort (fun a b => lexLe a.title b.title = true) l

/-- TagNode.expand: on the first expansion fetch the notes carrying the tag,
sort them by title, add a child note node for each (without clearing the
children first), and mark the node loaded; finally mark it expanded. -/
def tagExpand (oracle : List Char → List Note) (st : ExpState) (nid : Nat) : ExpState :=
  match nlookup st.nodes nid with
  | none => st
  | some n =>
    match n.data with
    | .tagData t _ loaded =>
      let st1 :=
        if loaded then st
        else
          let st2 := (sortNotesByTitle (oracle (tagQuery t.name))).foldl
            (fun s note => addNoteTo s nid note) st
          setNodeLoaded st2 nid
      setNodeExpanded st1 nid true
    | _ => setNodeExpanded st nid true

/-- Node.expand dispatched on the dynamic type of the node. -/
def nodeExpand (oracle : List Char → List Note) (st : ExpState) (nid : Nat) : ExpState :=
  match nlookup st.nodes nid with
  | none => st
  | some n =>
    match n.data with
    | .notebookData _ _ _ => notebookExpand oracle st nid
    | .tagData _ _ _ => tagExpand oracle st nid
    | .noteData _ _ _ => setNodeExpanded st nid true

/-- Node.toggle: close when expanded, expand when closed. -/
def nodeToggle (oracle : List Char → List Note) (st : ExpState) (nid : Nat) : ExpState :=
  match nlookup st.nodes nid with
  | none => st
  | some n => if n.expanded then setNodeExpanded st nid false else nodeExpand oracle st nid

/-- Node.activate toggles; NoteNode.activate additionally issues the
external GeeknoteOpenNote call, which does not change this state. -/
def nodeActivate (oracle : List Char → List Note) (st : ExpState) (nid : Nat) : ExpState :=
  nodeToggle oracle st nid

/-! ### Explorer: buffer scanning -/

/-- A python runtime error: attribute access on None, or an attribute
missing from an object of the wrong class. -/
inductive PyErr : Type
  | noneAttr
  | attrErr
deriving DecidableEq

/-- The text of a buffer row (rows passed by the callers are in range). -/
def bufLine (st : ExpState) (row : Nat) : List Char :=
  (st.buffer[row]?).getD []

/-- The scanning loop of Explorer.getNodeParent: walk from the given row
down to row one; a line whose key resolves to a non-note node is returned,
a line whose key is not in the registry resolves to None and is returned as
well (None is not a NoteNode), rows without a key are skipped.  Row zero is
never examined because the loop guard requires a positive row. -/
def gnpLoop (st : ExpState) : Nat → Option Nat
  | 0 => none
  | r + 1 =>
    match getNodeKeyL (bufLine st (r + 1)) with
    | some key =>
      match getNode st key with
      | some nid =>
        (match nlookup st.nodes nid with
         | some n => if n.isNote then gnpLoop st r else some nid
         | none => some nid)
      | none => none
    | none => gnpLoop st r

/-- Explorer.getNodeParent: only notes have parents, so a row not holding a
note node yields None; otherwise scan upward for the nearest row holding a
non-note node. -/
def getNodeParent (st : ExpState) (row : Nat) : Option Nat :=
  let first :=
    match getNodeKeyL (bufLine st row) with
    | some key =>
      match getNode st key with
      | some nid => nlookup st.nodes nid
      | none => none
    | none => none
  match first with
  | some n => if n.isNote then gnpLoop st row else none
  | none => none

/-- Push a node on modifiedNodes unless it is already there. -/
def addModified (st : ExpState) (nid : Nat) : ExpState :=
  if nid ∈ st.modifiedNodes then st
  else { st with modifiedNodes := st.modifiedNodes ++ [nid] }

/-- Update the notebookGuid attribute of a note node. -/
def setNoteNotebookGuid (st : ExpState) (nid : Nat) (g : List Char) : ExpState :=
  match nlookup st.nodes nid with
  | none => st
  | some n =>
    match n.data with
    | .noteData note title _ =>
      { st with nodes := nset st.nodes nid { n with data := .noteData note title g } }
    | _ => st

/-- One iteration of the Explorer.applyChanges loop at a given row.  A line
without a key is skipped.  Otherwise the key is dereferenced (adapt on None
raises), the node adapts to the line text, and when the node is a note whose
parent is a notebook the upward scan decides whether it moved: a changed
parent copies the guid of the new parent notebook onto the note node (an
attribute error when the scan produced None or a tag node), expands the new
parent, unlinks the node from the old parent and appends it under the new
one.  A node that adapted or moved is pushed on modifiedNodes once. -/
def applyStep (oracle : List Char → List Note) (st : ExpState) (row : Nat) :
    Except PyErr ExpState :=
  match getNodeKeyL (bufLine st row) with
  | none => .ok st
  | some key =>
    match getNode st key with
    | none => .error .noneAttr
    | some nid =>
      match nlookup st.nodes nid with
      | none => .error .noneAttr
      | some n =>
        let am := nodeAdapt n (bufLine st row)
        let n1 := am.2
        let st1 := { st with nodes := nset st.nodes nid n1 }
        let done : ExpState := if am.1 then addModified st1 nid else st1
        if n1.isNote then
          match n1.parent with
          | some oldPid =>
            (match nlookup st1.nodes oldPid with
             | some oldP =>
               if oldP.isNotebook then
                 (if getNodeParent st1 row = some oldPid then .ok done
                  else
                    match getNodeParent st1 row with
                    | none => .error .noneAttr
                    | some pid =>
                      match nlookup st1.nodes pid with
                      | none => .error .noneAttr
                      | some p =>
                        match p.data with
                        | .notebookData nb _ _ =>
                          let st2 := setNoteNotebookGuid st1 nid nb.guid
                          let st3 := notebookExpand oracle st2 pid
                          let st4 := removeChildOp st3 oldPid nid
                          let st5 := addChildOp st4 pid nid
                          .ok (addModified st5 nid)
                        | _ => .error .attrErr)
               else .ok done
             | none => .ok done)
          | none => .ok done
        else .ok done

/-- Explorer.applyChanges: run the row iteration over every buffer row in
order; an exception aborts the loop. -/
def applyChanges (oracle : List Char → List Note) (st : ExpState) :
    Except PyErr ExpState :=
  (List.range st.buffer.length).foldlM (fun s row => applyStep oracle s row) st

/-- Explorer.activateNode: a line without a key does nothing; otherwise the
key is dereferenced without a None check and the node is activated.  The
re-rendering that follows in the source only repaints the window and is
modelled separately by the render functions. -/
def activateNode (oracle : List Char → List Note) (st : ExpState) (line : List Char) :
    Except PyErr ExpState :=
  match getNodeKeyL line with
  | none => .ok st
  | some key =>
    match getNode st key with
    | none => .error .noneAttr
    | some nid => .ok (nodeActivate oracle st nid)

/-! ### Rendering -/

/-- Default marker for an opened node (configurable in the source through a
vim variable; the default is modelled). -/
def openedChar : List Char := ['▽']

/-- Default marker for a closed node. -/
def closedChar : List Char := ['▶']

/-- Left-justify in a field of the given width, as the python format spec
does.  The source measures the utf8 byte length where this model counts
characters; the claims under proof only concern line counts and line
structure, which the difference does not touch. -/
def padTo (w : Nat) (l : List Char) : List Char :=
  l ++ List.replicate (w - l.length) ' '

/-- The parenthesised note count suffix of a container line. -/
def countSuffix (n : Nat) : List Char :=
  ' ' :: '(' :: (natDigits n ++ [')'])

def noteTitle (n : NodeRec) : List Char :=
  match n.data with
  | .noteData _ t _ => t
  | _ => []

def nodeLoaded (n : NodeRec) : Bool :=
  match n.data with
  | .notebookData _ _ l => l
  | .tagData _ _ l => l
  | .noteData _ _ _ => false

/-- NoteNode.render: one line, indented four spaces per indent level,
left-justified to width 48, followed by the bracketed key. -/
def renderNoteLine (n : NodeRec) : List Char :=
  padTo 48 (List.replicate (n.indent * 4) ' ' ++ noteTitle n) ++
    ' ' :: 'n' :: '[' :: (n.key ++ [']'])

/-- The marker an expandable container line starts with: opened when
expanded, and also when loaded with no notes; closed otherwise. -/
def containerMark (expanded loaded : Bool) (numNotes : Nat) : List Char :=
  if expanded then openedChar
  else if loaded && numNotes == 0 then openedChar else closedChar

/-- NotebookNode.render: one line for the node itself, then, when expanded,
one line per child note in children order. -/
def renderNotebookNode (nodes : List (Nat × NodeRec)) (n : NodeRec) : List (List Char) :=
  match n.data with
  | .notebookData _ name loaded =>
    let numNotes := n.children.length
    let line := containerMark n.expanded loaded numNotes ++ ' ' :: name ++
      (if numNotes ≠ 0 then countSuffix numNotes else [])
    let selfLine := padTo 50 line ++ ' ' :: 'N' :: '[' :: (n.key ++ [']'])
    selfLine ::
      (if n.expanded then
        (n.children.map (fun cid =>
          match nlookup nodes cid with
          | some c => [renderNoteLine c]
          | none => [])).flatten
      else [])
  | _ => []

/-- TagNode.render: same shape as a notebook line with a T key marker. -/
def renderTagNode (nodes : List (Nat × NodeRec)) (n : NodeRec) : List (List Char) :=
  match n.data with
  | .tagData _ name loaded =>
    let numNotes := n.children.length
    let line := containerMark n.expanded loaded numNotes ++ ' ' :: name ++
      (if numNotes ≠ 0 then countSuffix numNotes else [])
    let selfLine := padTo 50 line ++ ' ' :: 'T' :: '[' :: (n.key ++ [']'])
    selfLine ::
      (if n.expanded then
        (n.children.map (fun cid =>
          match nlookup nodes cid with
          | some c => [renderNoteLine c]
          | none => [])).flatten
      else [])
  | _ => []

/-- Node.render dispatched on the dynamic type of the node. -/
def renderNode (nodes : List (Nat × NodeRec)) (n : NodeRec) : List (List Char) :=
  match n.data with
  | .notebookData _ _ _ => renderNotebookNode nodes n
  | .tagData _ _ _ => renderTagNode nodes n
  | .noteData _ _ _ => [renderNoteLine n]

/-- The 92 column separator line under a section header. -/
def sepLine : List Char := List.replicate 92 '='

/-- The lines a list of nodes contributes, in list order. -/
def renderSection (st : ExpState) (ids : List Nat) : List (List Char) :=
  (ids.map (fun nid =>
    match nlookup st.nodes nid with
    | some n => renderNode st.nodes n
    | none => [])).flatten

/-- The content list Explorer.render builds: the notebook header and
separator, every notebook node in list order, then a tags section only when
there are tags, then a search results section only when there are search
results. -/
def explorerRenderContent (st : ExpState) : List (List Char) :=
  ("Notebooks:".toList :: sepLine :: renderSection st st.notebooks)
  ++ (if st.tags ≠ [] then
        [] :: "Tags:".toList :: sepLine :: renderSection st st.tags else [])
  ++ (if st.searchResults ≠ [] then
        [] :: "Search Results:".toList :: sepLine :: renderSection st st.searchResults
      else [])

/-- Explorer.render returns early when no navigation buffer exists;
otherwise it harvests user edits (modelled by applyChanges), clears the
buffer and writes the content list.  The emitted content is modelled; the
cursor, resize and write host calls are not. -/
def explorerRender (st : ExpState) : Option (List (List Char)) :=
  if st.hasBuffer then some (explorerRenderContent st) else none

/-! ### Committing to the service -/

/-- A call to the remote note service. -/
inductive SvcCall : Type
  | updateNote (n : Note)
  | updateNotebook (nb : Notebook)
deriving DecidableEq

/-- NoteNode.commitChanges: compare stored title and notebookGuid against
the underlying note; copy a differing field onto the note and issue one
remote update call per differing field. -/
def noteCommitChanges (note : Note) (title nbGuid : List Char) : Note × List SvcCall :=
  let p1 : Note × List SvcCall :=
    if note.title ≠ title then
      ({ note with title := title }, [SvcCall.updateNote { note with title := title }])
    else (note, [])
  if p1.1.notebookGuid ≠ nbGuid then
    ({ p1.1 with notebookGuid := nbGuid },
      p1.2 ++ [SvcCall.updateNote { p1.1 with notebookGuid := nbGuid }])
  else (p1.1, p1.2)

/-! ### Explorer construction: editor hooks -/

/-- A call made to the host editor or remote service during construction. -/
inductive EdCall : Type
  | autocmdReg (event pat cmd : List Char)
  | svcFindNoteCounts
  | svcGetNotebook (guid : List Char)
  | svcGetNotebooks
  | svcGetTags
  | svcGetDefaultNotebook
deriving DecidableEq

/-- The vim variables construction reads: an optional explicit notebook guid
list, and an optional name filter list (filters cause no service calls). -/
structure VimConfig where
  notebookGuids : Option (List (List Char))
  notebookFilters : Option (List (List Char))
deriving DecidableEq

/-- The construction-time service responses: the notebook held under a
configured guid (None when the service has none), the full notebook list,
and the re.search outcome of a user filter pattern on a notebook name.  The
filter patterns are arbitrary regexes compiled out of a vim variable (a
pattern that fails to compile is dropped, which the oracle renders as a
pattern matching nothing), so their match relation stays an oracle. -/
structure InitSvc where
  getNotebook : List Char → Option Notebook
  getNotebooks : List Notebook
  filterMatch : List Char → List Char → Bool

/-- Explorer.refreshNotebooks: one get-notebook call per configured guid, or
a single get-notebooks call; paired with whether any addNotebook ran (a
configured guid the service resolves, or — without a guid list — a returned
notebook passing the filters, every returned notebook when no filters are
set).  Explorer.addNotebook ends in selectNode, so the flag records whether
selectedNode was set during the refresh. -/
def refreshNotebooksCalls (cfg : VimConfig) (svc : InitSvc) : List EdCall × Bool :=
  match cfg.notebookGuids with
  | some guids =>
    (guids.map (fun g => EdCall.svcGetNotebook g),
     guids.any (fun g => (svc.getNotebook g).isSome))
  | none =>
    match cfg.notebookFilters with
    | none => ([EdCall.svcGetNotebooks], decide (svc.getNotebooks ≠ []))
    | some filters =>
      ([EdCall.svcGetNotebooks],
       svc.getNotebooks.any (fun nb => filters.any (fun f => svc.filterMatch f nb.name)))

/-- The trace of external calls made by Explorer construction: the initial
refresh (note counts, notebooks, tags, then the default notebook only when
no node was selected during the notebook refresh — addTag never selects and
expandState is empty at construction so restoring it expands nothing), then
the three autocmd hook registrations on the fresh temporary data file.
Nothing else in the constructor reaches the host. -/
def explorerInitCalls (cfg : VimConfig) (svc : InitSvc) (dataFileName : List Char) :
    List EdCall :=
  (EdCall.svcFindNoteCounts :: (refreshNotebooksCalls cfg svc).1 ++
    [EdCall.svcGetTags])
  ++ (if (refreshNotebooksCalls cfg svc).2 then []
      else [EdCall.svcGetDefaultNotebook])
  ++ [EdCall.autocmdReg "BufWritePre".toList dataFileName
        ":call Vim_GeeknoteCommitStart()".toList,
      EdCall.autocmdReg "BufWritePost".toList dataFileName
        ":call Vim_GeeknoteCommitComplete()".toList,
      EdCall.autocmdReg "VimLeave".toList "*".toList
        ":call Vim_GeeknoteTerminate()".toList]

/-- Projection keeping only hook registrations. -/
def autocmdOf : EdCall → Option (List Char × List Char × List Char)
  | .autocmdReg e p c => some (e, p, c)
  | _ => none

/-! ### Adding notebooks and tags -/

def mkNotebookNode (nb : Notebook) : NodeRec :=
  { parent := none, children := [], indent := 0, key := [], expanded := false,
    data := .notebookData nb nb.name false }

def mkTagNode (t : Tag) : NodeRec :=
  { parent := none, children := [], indent := 0, key := [], expanded := false,
    data := .tagData t t.name false }

/-- The python sort key of the notebook list: the lowercased name of the
underlying notebook object of the node. -/
def nbSortKey (nodes : List (Nat × NodeRec)) (nid : Nat) : List Char :=
  match nlookup nodes nid with
  | some n =>
    (match n.data with
     | .notebookData nb _ _ => nb.name.map Char.toLower
     | _ => [])
  | none => []

/-- The python sort key of the tag list: the lowercased name of the
underlying tag object of the node. -/
def tagSortKey (nodes : List (Nat × NodeRec)) (nid : Nat) : List Char :=
  match nlookup nodes nid with
  | some n =>
    (match n.data with
     | .tagData t _ _ => t.name.map Char.toLower
     | _ => [])
  | none => []

/-- Stable sort of node ids by a key into the store, as the python list
sort produces it. -/
def sortIdsBy (key : List (Nat × NodeRec) → Nat → List Char)
    (nodes : List (Nat × NodeRec)) (l : List Nat) : List Nat :=
  List.insertionSort (fun a b => lexLe (key nodes a) (key nodes b) = true) l

/-- Explorer.addNotebook: build the node, append it to the notebook list,
sort the list by lowercased notebook name, register the node and select
it (the fresh node has no row yet, so no cursor call happens). -/
def addNotebook (st : ExpState) (nb : Notebook) : ExpState :=
  let nid := st.nextId
  let st1 := { st with
    nodes := nset st.nodes nid (mkNotebookNode nb),
    nextId := st.nextId + 1 }
  let st2 := { st1 with notebooks := sortIdsBy nbSortKey st1.nodes (st1.notebooks ++ [nid]) }
  let st3 := registerNode st2 nid
  { st3 with selectedNode := some nid }

/-- Explorer.addTag: build the node, append it to the tag list, sort the
list by lowercased tag name and register the node. -/
def addTag (st : ExpState) (t : Tag) : ExpState :=
  let nid := st.nextId
  let st1 := { st with
    nodes := nset st.nodes nid (mkTagNode t),
    nextId := st.nextId + 1 }
  let st2 := { st1 with tags := sortIdsBy tagSortKey st1.nodes (st1.tags ++ [nid]) }
  registerNode st2 nid

/-! ### Registration sessions (for the registry uniqueness claim) -/

/-- One session event touching the registry: registering a freshly created
node, or the deleteNodes clearing. -/
inductive SessionOp : Type
  | register (node : NodeRec)
  | delete
deriving DecidableEq

/-- The key stored on a node. -/
def keyOf (st : ExpState) (nid : Nat) : List Char :=
  match nlookup st.nodes nid with
  | some n => n.key
  | none => []

/-- Run one session event.  Alongside the state we carry the list of all
keys ever assigned by registerNode this session, and the association list of
registrations since the last deleteNodes (most recent first). -/
def sessionStep :
    ExpState × List (List Char) × List (List Char × Nat) → SessionOp →
    ExpState × List (List Char) × List (List Char × Nat)
  | (st, keys, live), .register node =>
    let nid := st.nextId
    let st1 := { st with nodes := nset st.nodes nid node, nextId := st.nextId + 1 }
    let st2 := registerNode st1 nid
    (st2, keys ++ [keyOf st2 nid], (keyOf st2 nid, nid) :: live)
  | (st, keys, live), .delete => (deleteNodes st, keys, [])

/-- The empty starting state of a session. -/
def initExpState : ExpState :=
  { nodes := [], registry := [], instanceMap := [], modifiedNodes := [],
    buffer := [], hasBuffer := false, notebooks := [], tags := [],
    searchResults := [], selectedNode := none, nextId := 0 }

/-- Run a whole session from the empty state. -/
def sessionRun (ops : List SessionOp) :
    ExpState × List (List Char) × List (List Char × Nat) :=
  ops.foldl sessionStep (initExpState, [], [])

/-- A line matches the key pattern of Explorer.getNodeKey when it splits
into a nonempty prefix, a left bracket, a nonempty capture and a final
right bracket. -/
def matchesKeyPattern (line : List Char) : Prop :=
  ∃ pre k, line = pre ++ '[' :: (k ++ [']']) ∧ pre ≠ [] ∧ k ≠ []
/-- A one line buffer state holding only the section header. -/
def headerOnlyState : ExpState :=
  { initExpState with buffer := ["Notebooks:".toList], hasBuffer := true }

/-- The invariant carried through a registration session: every assigned key
for a guid stays at or below the recorded maximum instance of that guid, the
assigned keys are distinct, and the registry agrees pointwise with the list
of registrations since the last clearing. -/
def SessionInv (t : ExpState × List (List Char) × List (List Char × Nat)) : Prop :=
  (∀ g i, mkKey g i ∈ t.2.1 → ∃ m, alookup t.1.instanceMap g = some m ∧ i ≤ m) ∧
  t.2.1.Nodup ∧
  (∀ k, alookup t.1.registry k = alookup t.2.2 k)

/-- The instance number registerNode assigns next for a guid. -/
def nextInst (m : List (List Char × Nat)) (g : List Char) : Nat :=
  match alookup m g with
  | none => 0
  | some i => i + 1
/-- A state whose buffer holds a line with a key that is not registered. -/
def staleKeyState : ExpState :=
  { initExpState with buffer := ["stale x[missing]".toList], hasBuffer := true }

/-- A state with one registered note node and a line naming its key. -/
def oneNoteState : ExpState :=
  { initExpState with
    nodes := [(0, mkNoteNode ⟨"g".toList, "t".toList, "nb".toList⟩ 1)],
    registry := [("k".toList, 0)],
    nextId := 1 }

/-- A store with one collapsed, unloaded notebook node. -/
def nbWitnessState : ExpState :=
  { initExpState with
    nodes := [(0, mkNotebookNode ⟨"g".toList, "Work".toList⟩)],
    nextId := 1 }

/-- A state with a buffer attached and one notebook in the list. -/
def renderWitnessState : ExpState :=
  { nbWitnessState with hasBuffer := true, notebooks := [0] }

/-- A buffer row the upward scan of getNodeParent walks past: either no key
parses from its line, or the key resolves to a registered note node. -/
def rowSkippable (st : ExpState) (r : Nat) : Prop :=
  getNodeKeyL (bufLine st r) = none ∨
  ∃ k nid n, getNodeKeyL (bufLine st r) = some k ∧ getNode st k = some nid ∧
    nlookup st.nodes nid = some n ∧ n.isNote = true

/-- A buffer row holding a registered non-note node. -/
def rowNonNote (st : ExpState) (r : Nat) (pid : Nat) : Prop :=
  ∃ k n, getNodeKeyL (bufLine st r) = some k ∧ getNode st k = some pid ∧
    nlookup st.nodes pid = some n ∧ n.isNote = false

def c1Note : NodeRec :=
  { parent := some 1, children := [], indent := 1, key := "nk".toList,
    expanded := false,
    data := .noteData ⟨"ng".toList, "T".toList, "og".toList⟩ "T".toList "og".toList }

def c1OldNb : NodeRec :=
  { parent := none, children := [0], indent := 0, key := "ok".toList,
    expanded := true,
    data := .notebookData ⟨"og".toList, "Old".toList⟩ "Old".toList true }

def c1NewNb : NodeRec :=
  { parent := none, children := [], indent := 0, key := "pk".toList,
    expanded := false,
    data := .notebookData ⟨"pg".toList, "New".toList⟩ "New".toList true }

def c1State : ExpState :=
  { initExpState with
    nodes := [(0, c1Note), (1, c1OldNb), (2, c1NewNb)],
    registry := [("nk".toList, 0), ("ok".toList, 1), ("pk".toList, 2)],
    buffer := ["".toList, "New [pk]".toList, " T n[nk]".toList],
    hasBuffer := true,
    notebooks := [1, 2],
    nextId := 3 }


theorem lexLe_total : ∀ a b : List Char, lexLe a b = true ∨ lexLe b a = true := by
  intro a
  induction a with
  | nil => intro b; left; rfl
  | cons x xs ih =>
    intro b
    cases b with
    | nil => right; rfl
    | cons y ys =>
      by_cases hxy : x < y
      · left; simp [lexLe, hxy]
      · by_cases hyx : y < x
        · right; simp [lexLe, hyx]
        · rcases ih ys with h | h
          · left; simp [lexLe, hxy, hyx, h]
          · right; simp [lexLe, hyx, hxy, h]

theorem lexLe_trans :
    ∀ a b c : List Char, lexLe a b = true → lexLe b c = true → lexLe a c = true := by
  intro a
  induction a with
  | nil => intro b c _ _; rfl
  | cons x xs ih =>
    intro b c hab hbc
    cases b with
    | nil => simp [lexLe] at hab
    | cons y ys =>
      cases c with
      | nil => simp [lexLe] at hbc
      | cons z zs =>
        simp only [lexLe] at hab hbc ⊢
        by_cases hxy : x < y
        · by_cases hyz : y < z
          · have hxz : x < z := lt_trans hxy hyz
            simp [hxz]
          · by_cases hzy : z < y
            · simp [hyz, hzy] at hbc
            · have hyez : y = z := le_antisymm (not_lt.mp hzy) (not_lt.mp hyz)
              subst hyez
              simp [hxy]
        · by_cases hyx : y < x
          · simp [hxy, hyx] at hab
          · have hxey : x = y := le_antisymm (not_lt.mp hyx) (not_lt.mp hxy)
            subst hxey
            by_cases hxz : x < z
            · simp [hxz]
            · by_cases hzx : z < x
              · simp [hxz, hzx] at hbc
              · have : x = z := le_antisymm (not_lt.mp hzx) (not_lt.mp hxz)
                subst this
                simp only [lt_irrefl, if_false] at hab hbc ⊢
                exact ih ys zs hab hbc


theorem digitVal_digitChar {d : Nat} (h : d < 10) : digitVal (Nat.digitChar d) = d := by
  interval_cases d <;> rfl

theorem digitsToNat_append (l : List Char) (c : Char) (a : Nat) :
    (l ++ [c]).foldl (fun acc c => acc * 10 + digitVal c) a =
      l.foldl (fun acc c => acc * 10 + digitVal c) a * 10 + digitVal c := by
  simp [List.foldl_append]

theorem digitsToNat_natDigits (n : Nat) : digitsToNat (natDigits n) = n := by
  induction n using Nat.strong_induction_on with
  | _ n ih =>
    rw [natDigits]
    by_cases h : n < 10
    · simp only [h, dif_pos]
      simp [digitsToNat, digitVal_digitChar h]
    · simp only [h, dif_neg, not_false_iff]
      have hdiv : n / 10 < n := Nat.div_lt_self (by omega) (by omega)
      have := ih (n / 10) hdiv
      unfold digitsToNat at this ⊢
      rw [digitsToNat_append, this, digitVal_digitChar (Nat.mod_lt _ (by omega))]
      omega

theorem natDigits_injective {m n : Nat} (h : natDigits m = natDigits n) : m = n := by
  have := digitsToNat_natDigits m
  rw [h, digitsToNat_natDigits] at this
  omega

theorem natDigits_isDigit (n : Nat) : ∀ c ∈ natDigits n, c.isDigit = true := by
  induction n using Nat.strong_induction_on with
  | _ n ih =>
    rw [natDigits]
    by_cases h : n < 10
    · simp only [h, dif_pos, List.mem_singleton]
      intro c hc; subst hc
      interval_cases n <;> decide
    · simp only [h, dif_neg, not_false_iff, List.mem_append, List.mem_singleton]
      intro c hc
      rcases hc with hc | hc
      · exact ih (n / 10) (Nat.div_lt_self (by omega) (by omega)) c hc
      · subst hc
        have : n % 10 < 10 := Nat.mod_lt _ (by omega)
        interval_cases h : n % 10 <;> decide


theorem alookup_aset {β : Type} (l : List (List Char × β)) (k k2 : List Char) (v : β) :
    alookup (aset l k v) k2 = if k2 = k then some v else alookup l k2 := by
  induction l with
  | nil => by_cases h : k2 = k <;> simp [aset, alookup, h]
  | cons p rest ih =>
    obtain ⟨k0, v0⟩ := p
    by_cases hk : k = k0
    · subst hk
      by_cases h2 : k2 = k <;> simp [aset, alookup, h2]
    · by_cases h2 : k2 = k0
      · subst h2
        simp [aset, hk, alookup, Ne.symm hk]
      · simp [aset, hk, alookup, h2, ih]


theorem nlookup_nset {β : Type} (l : List (Nat × β)) (k k2 : Nat) (v : β) :
    nlookup (nset l k v) k2 = if k2 = k then some v else nlookup l k2 := by
  induction l with
  | nil => by_cases h : k2 = k <;> simp [nset, nlookup, h]
  | cons p rest ih =>
    obtain ⟨k0, v0⟩ := p
    by_cases hk : k = k0
    · subst hk
      by_cases h2 : k2 = k <;> simp [nset, nlookup, h2]
    · by_cases h2 : k2 = k0
      · subst h2
        simp [nset, hk, nlookup, Ne.symm hk]
      · simp [nset, hk, nlookup, h2, ih]

/-! ### Theorems -/

/-- C3: NoteNode.commitChanges issues one remote update per differing field,
copying the stored value onto the note first, and issues nothing, leaving
the note unchanged, when neither the title nor the notebookGuid differs. -/
theorem noteCommitChanges_spec (note : Note) (title nbGuid : List Char) :
    noteCommitChanges note title nbGuid =
      ({ note with title := title, notebookGuid := nbGuid },
        (if note.title ≠ title then
          [SvcCall.updateNote { note with title := title }] else []) ++
        (if note.notebookGuid ≠ nbGuid then
          [SvcCall.updateNote { note with title := title, notebookGuid := nbGuid }]
         else [])) ∧
    (note.title = title → note.notebookGuid = nbGuid →
      noteCommitChanges note title nbGuid = (note, [])) := by
  constructor
  · unfold noteCommitChanges
    by_cases h1 : note.title = title <;> by_cases h2 : note.notebookGuid = nbGuid <;>
      cases note <;> simp_all
  · intro h1 h2
    unfold noteCommitChanges
    cases note <;> simp_all

/-- C3 witness: with equal stored and remote fields, no call is made. -/
theorem noteCommitChanges_spec_witness :
    noteCommitChanges ⟨"g".toList, "t".toList, "nb".toList⟩ "t".toList "nb".toList =
      (⟨"g".toList, "t".toList, "nb".toList⟩, []) :=
  (noteCommitChanges_spec ⟨"g".toList, "t".toList, "nb".toList⟩ "t".toList "nb".toList).2
    rfl rfl

/-- C7: constructing an Explorer registers exactly three editor hooks, a
BufWritePre and a BufWritePost hook on the temporary data file and a
VimLeave hook, whatever the vim configuration; the refresh preceding them
makes only remote service calls. -/
theorem explorerInit_hooks (cfg : VimConfig) (svc : InitSvc) (dataFileName : List Char) :
    (explorerInitCalls cfg svc dataFileName).filterMap autocmdOf =
      [("BufWritePre".toList, dataFileName, ":call Vim_GeeknoteCommitStart()".toList),
       ("BufWritePost".toList, dataFileName, ":call Vim_GeeknoteCommitComplete()".toList),
       ("VimLeave".toList, "*".toList, ":call Vim_GeeknoteTerminate()".toList)] ∧
    (EdCall.svcGetDefaultNotebook ∈ explorerInitCalls cfg svc dataFileName ↔
      (refreshNotebooksCalls cfg svc).2 = false) := by
  have hnone : ∀ c ∈ (refreshNotebooksCalls cfg svc).1, autocmdOf c = none ∧
      c ≠ EdCall.svcGetDefaultNotebook := by
    intro c hc
    unfold refreshNotebooksCalls at hc
    cases hg : cfg.notebookGuids with
    | some guids =>
      rw [hg] at hc
      dsimp only at hc
      obtain ⟨g, hg2, hgc⟩ := List.mem_map.1 hc
      subst hgc
      exact ⟨rfl, fun h => EdCall.noConfusion h⟩
    | none =>
      rw [hg] at hc
      cases hf : cfg.notebookFilters with
      | none =>
        rw [hf] at hc
        dsimp only at hc
        rw [List.mem_singleton] at hc
        subst hc
        exact ⟨rfl, fun h => EdCall.noConfusion h⟩
      | some filters =>
        rw [hf] at hc
        dsimp only at hc
        rw [List.mem_singleton] at hc
        subst hc
        exact ⟨rfl, fun h => EdCall.noConfusion h⟩
  constructor
  · unfold explorerInitCalls
    rw [List.filterMap_append, List.filterMap_append]
    have hA : List.filterMap autocmdOf
        (EdCall.svcFindNoteCounts :: (refreshNotebooksCalls cfg svc).1 ++
          [EdCall.svcGetTags]) = [] := by
      rw [List.filterMap_eq_nil_iff]
      intro c hc
      rcases List.mem_cons.1 hc with hc1 | hc2
      · subst hc1
        rfl
      · rcases List.mem_append.1 hc2 with hc3 | hc4
        · exact (hnone c hc3).1
        · rw [List.mem_singleton] at hc4
          subst hc4
          rfl
    have hB : List.filterMap autocmdOf
        (if (refreshNotebooksCalls cfg svc).2 then ([] : List EdCall)
         else [EdCall.svcGetDefaultNotebook]) = [] := by
      by_cases hb : (refreshNotebooksCalls cfg svc).2 = true
      · rw [if_pos hb]
        rfl
      · rw [if_neg hb]
        rfl
    rw [hA, hB]
    rfl
  · unfold explorerInitCalls
    constructor
    · intro hm
      rcases List.mem_append.1 hm with hm1 | hm2
      · rcases List.mem_append.1 hm1 with hm3 | hm4
        · rcases List.mem_cons.1 hm3 with hm5 | hm6
          · exact EdCall.noConfusion hm5
          · rcases List.mem_append.1 hm6 with hm7 | hm8
            · exact absurd rfl (hnone _ hm7).2
            · rw [List.mem_singleton] at hm8
              exact EdCall.noConfusion hm8
        · by_cases hb : (refreshNotebooksCalls cfg svc).2 = true
          · rw [if_pos hb] at hm4
            cases hm4
          · rw [if_neg hb] at hm4
            exact Bool.not_eq_true _ ▸ Bool.eq_false_iff.2 hb
      · rcases List.mem_cons.1 hm2 with hm5 | hm6
        · exact EdCall.noConfusion hm5
        · rcases List.mem_cons.1 hm6 with hm7 | hm8
          · exact EdCall.noConfusion hm7
          · rcases List.mem_cons.1 hm8 with hm9 | hm10
            · exact EdCall.noConfusion hm9
            · cases hm10
    · intro hflag
      apply List.mem_append.2
      apply Or.inl
      apply List.mem_append.2
      apply Or.inr
      rw [if_neg (by rw [hflag]; exact fun h => Bool.noConfusion h)]
      exact List.mem_singleton.2 rfl

theorem nbSortKey_nset_key (nodes : List (Nat × NodeRec)) (nid : Nat) (n : NodeRec)
    (k : List Char) (h : nlookup nodes nid = some n) (q : Nat) :
    nbSortKey (nset nodes nid { n with key := k }) q = nbSortKey nodes q := by
  unfold nbSortKey
  rw [nlookup_nset]
  by_cases hq : q = nid
  · subst hq; rw [if_pos rfl, h]
  · rw [if_neg hq]

theorem tagSortKey_nset_key (nodes : List (Nat × NodeRec)) (nid : Nat) (n : NodeRec)
    (k : List Char) (h : nlookup nodes nid = some n) (q : Nat) :
    tagSortKey (nset nodes nid { n with key := k }) q = tagSortKey nodes q := by
  unfold tagSortKey
  rw [nlookup_nset]
  by_cases hq : q = nid
  · subst hq; rw [if_pos rfl, h]
  · rw [if_neg hq]

theorem sortIdsBy_sorted (key : List (Nat × NodeRec) → Nat → List Char)
    (nodes : List (Nat × NodeRec)) (l : List Nat) :
    List.Sorted (fun a b => lexLe (key nodes a) (key nodes b) = true)
      (sortIdsBy key nodes l) := by
  letI : IsTotal Nat (fun a b => lexLe (key nodes a) (key nodes b) = true) :=
    ⟨fun a b => lexLe_total (key nodes a) (key nodes b)⟩
  letI : IsTrans Nat (fun a b => lexLe (key nodes a) (key nodes b) = true) :=
    ⟨fun a b c hab hbc => lexLe_trans _ _ _ hab hbc⟩
  exact List.sorted_insertionSort _ l

theorem sortIdsBy_perm (key : List (Nat × NodeRec) → Nat → List Char)
    (nodes : List (Nat × NodeRec)) (l : List Nat) :
    (sortIdsBy key nodes l).Perm l :=
  List.perm_insertionSort _ l

theorem nbSortKey_registerNode (st : ExpState) (nid q : Nat) :
    nbSortKey (registerNode st nid).nodes q = nbSortKey st.nodes q := by
  unfold registerNode
  cases h : nlookup st.nodes nid with
  | none => rfl
  | some n => exact nbSortKey_nset_key _ _ _ _ h q

theorem tagSortKey_registerNode (st : ExpState) (nid q : Nat) :
    tagSortKey (registerNode st nid).nodes q = tagSortKey st.nodes q := by
  unfold registerNode
  cases h : nlookup st.nodes nid with
  | none => rfl
  | some n => exact tagSortKey_nset_key _ _ _ _ h q

/-- C10: after addNotebook the notebook list is, up to the one appended
node, the old list, and is sorted by lowercased underlying notebook name;
likewise addTag for the tag list and lowercased tag name. -/
theorem addNotebook_addTag_sorted (st : ExpState) (nb : Notebook) (t : Tag) :
    ((addNotebook st nb).notebooks.Perm (st.notebooks ++ [st.nextId]) ∧
     List.Sorted
       (fun a b =>
         lexLe (nbSortKey (addNotebook st nb).nodes a)
           (nbSortKey (addNotebook st nb).nodes b) = true)
       (addNotebook st nb).notebooks) ∧
    ((addTag st t).tags.Perm (st.tags ++ [st.nextId]) ∧
     List.Sorted
       (fun a b =>
         lexLe (tagSortKey (addTag st t).nodes a)
           (tagSortKey (addTag st t).nodes b) = true)
       (addTag st t).tags) := by
  constructor
  · have hlook : nlookup (nset st.nodes st.nextId (mkNotebookNode nb)) st.nextId =
        some (mkNotebookNode nb) := by rw [nlookup_nset, if_pos rfl]
    have hnbs : (addNotebook st nb).notebooks =
        sortIdsBy nbSortKey (nset st.nodes st.nextId (mkNotebookNode nb))
          (st.notebooks ++ [st.nextId]) := by
      simp only [addNotebook, registerNode, hlook]
    have hkeys : ∀ q, nbSortKey (addNotebook st nb).nodes q =
        nbSortKey (nset st.nodes st.nextId (mkNotebookNode nb)) q := by
      intro q
      show nbSortKey (registerNode _ st.nextId).nodes q = _
      rw [nbSortKey_registerNode]
    constructor
    · rw [hnbs]; exact sortIdsBy_perm _ _ _
    · rw [hnbs]
      have := sortIdsBy_sorted nbSortKey (nset st.nodes st.nextId (mkNotebookNode nb))
        (st.notebooks ++ [st.nextId])
      refine List.Pairwise.imp ?_ this
      intro a b hab
      rw [hkeys a, hkeys b]
      exact hab
  · have hlook : nlookup (nset st.nodes st.nextId (mkTagNode t)) st.nextId =
        some (mkTagNode t) := by rw [nlookup_nset, if_pos rfl]
    have htags : (addTag st t).tags =
        sortIdsBy tagSortKey (nset st.nodes st.nextId (mkTagNode t))
          (st.tags ++ [st.nextId]) := by
      simp only [addTag, registerNode, hlook]
    have hkeys : ∀ q, tagSortKey (addTag st t).nodes q =
        tagSortKey (nset st.nodes st.nextId (mkTagNode t)) q := by
      intro q
      show tagSortKey (registerNode _ st.nextId).nodes q = _
      rw [tagSortKey_registerNode]
    constructor
    · rw [htags]; exact sortIdsBy_perm _ _ _
    · rw [htags]
      have := sortIdsBy_sorted tagSortKey (nset st.nodes st.nextId (mkTagNode t))
        (st.tags ++ [st.nextId])
      refine List.Pairwise.imp ?_ this
      intro a b hab
      rw [hkeys a, hkeys b]
      exact hab


theorem keyScanAux_none_iff :
    ∀ (l acc : List Char),
      keyScanAux acc l = none ↔
        (∀ l1 l2, l = l1 ++ '[' :: l2 → l2 ≠ [] → l1 = [] ∧ acc = []) := by
  intro l
  induction l with
  | nil =>
    intro acc
    constructor
    · intro _ l1 l2 hdec _
      exact absurd hdec.symm (by simp)
    · intro _
      rfl
  | cons c rest ih =>
    intro acc
    by_cases hc : c = '['
    · subst hc
      by_cases hcond : acc ≠ [] ∧ rest ≠ []
      · have hsome : keyScanAux acc ('[' :: rest) = some acc := by
          simp [keyScanAux, hcond]
        rw [hsome]
        constructor
        · intro h
          exact absurd h (by simp)
        · intro h
          exact absurd (h [] rest rfl hcond.2).2 hcond.1
      · have hcond2 : acc = [] ∨ rest = [] := by
          rcases not_and_or.mp hcond with h | h
          exacts [Or.inl (not_not.mp h), Or.inr (not_not.mp h)]
        have hstep : keyScanAux acc ('[' :: rest) = keyScanAux ('[' :: acc) rest := by
          simp [keyScanAux, hcond]
        rw [hstep, ih]
        constructor
        · intro h l1 l2 hdec hl2
          cases l1 with
          | nil =>
            have hrest : rest = l2 := by simpa using hdec
            refine ⟨rfl, ?_⟩
            rcases hcond2 with ha | hr
            · exact ha
            · rw [hrest] at hr
              exact absurd hr hl2
          | cons x l1a =>
            have hx : x = '[' ∧ rest = l1a ++ '[' :: l2 := by
              constructor
              · have := congrArg (fun t => t.headI) hdec
                simpa using this.symm
              · have := congrArg (fun t => t.tail) hdec
                simpa using this
            have h2 := h l1a l2 hx.2 hl2
            exact absurd h2.2 (by simp)
        · intro h l1 l2 hdec hl2
          exfalso
          have := h ('[' :: l1) l2 (by simp [hdec]) hl2
          simp at this
    · have hstep : keyScanAux acc (c :: rest) = keyScanAux (c :: acc) rest := by
        simp [keyScanAux, hc]
      rw [hstep, ih]
      constructor
      · intro h l1 l2 hdec hl2
        cases l1 with
        | nil =>
          have : c = '[' := by
            have := congrArg (fun t => t.headI) hdec
            simpa using this
          exact absurd this hc
        | cons x l1a =>
          have hrest : rest = l1a ++ '[' :: l2 := by
            have := congrArg (fun t => t.tail) hdec
            simpa using this
          have h2 := h l1a l2 hrest hl2
          exact absurd h2.2 (by simp)
      · intro h l1 l2 hdec hl2
        exfalso
        have := h (c :: l1) l2 (by simp [hdec]) hl2
        simp at this

theorem getNodeKeyL_eq_scan {line rest : List Char} (h : line.reverse = ']' :: rest) :
    getNodeKeyL line = keyScanAux [] rest := by
  unfold getNodeKeyL
  rw [h]
  rfl

theorem getNodeKeyL_eq_none_head {line : List Char} {c : Char} {rest : List Char}
    (h : line.reverse = c :: rest) (hc : c ≠ ']') : getNodeKeyL line = none := by
  unfold getNodeKeyL
  rw [h]
  split
  · next heq =>
    exfalso
    apply hc
    have := congrArg (fun t : List Char => t.headI) heq
    simpa using this
  · rfl

theorem getNodeKeyL_none_iff (line : List Char) :
    getNodeKeyL line = none ↔ ¬ matchesKeyPattern line := by
  cases hrev : line.reverse with
  | nil =>
    have hline : line = [] := by simpa using congrArg List.reverse hrev
    subst hline
    constructor
    · intro _ hm
      obtain ⟨pre, k, hdec, hpre, hk⟩ := hm
      exact absurd hdec.symm (by simp)
    · intro _
      rfl
  | cons c rest =>
    by_cases hc : c = ']'
    · subst hc
      rw [getNodeKeyL_eq_scan hrev, keyScanAux_none_iff]
      constructor
      · intro h hm
        obtain ⟨pre, k, hdec, hpre, hk⟩ := hm
        have h3 : line.reverse = ']' :: (k.reverse ++ '[' :: pre.reverse) := by
          rw [hdec]
          simp
        rw [hrev] at h3
        have hrest : rest = k.reverse ++ '[' :: pre.reverse := by
          have := congrArg (fun t : List Char => t.tail) h3
          simpa using this
        have := h k.reverse pre.reverse hrest (by simpa using hpre)
        exact hk (by simpa using this.1)
      · intro h l1 l2 hdec hl2
        refine ⟨?_, rfl⟩
        by_contra hl1
        apply h
        refine ⟨l2.reverse, l1.reverse, ?_, by simpa using hl2, by simpa using hl1⟩
        have hline : line = rest.reverse ++ [']'] := by
          simpa using congrArg List.reverse hrev
        rw [hline, hdec]
        simp
    · rw [getNodeKeyL_eq_none_head hrev hc]
      constructor
      · intro _ hm
        obtain ⟨pre, k, hdec, hpre, hk⟩ := hm
        have h3 : line.reverse = ']' :: (k.reverse ++ '[' :: pre.reverse) := by
          rw [hdec]
          simp
        rw [hrev] at h3
        apply hc
        have := congrArg (fun t : List Char => t.headI) h3
        simpa using this
      · intro _
        rfl

/-- C6: a buffer line whose text does not match the key pattern is benign:
getNodeKey returns None for it, and both the applyChanges row iteration and
activateNode skip it, leaving the whole state (nodes, modifiedNodes and the
registry) unchanged. -/
theorem nonmatching_line_benign (oracle : List Char → List Note) (st : ExpState)
    (row : Nat) (line : List Char)
    (hnm : ¬ matchesKeyPattern line) (hbl : bufLine st row = line) :
    getNodeKeyL line = none ∧
    applyStep oracle st row = .ok st ∧
    activateNode oracle st line = .ok st := by
  have hk : getNodeKeyL line = none := (getNodeKeyL_none_iff line).mpr hnm
  refine ⟨hk, ?_, ?_⟩
  · unfold applyStep
    rw [hbl, hk]
  · unfold activateNode
    rw [hk]

/-- C6 witness: the header line matches nothing and is skipped. -/
theorem nonmatching_line_benign_witness :
    getNodeKeyL "Notebooks:".toList = none ∧
    applyStep (fun _ => []) headerOnlyState 0 = .ok headerOnlyState ∧
    activateNode (fun _ => []) headerOnlyState "Notebooks:".toList = .ok headerOnlyState :=
  nonmatching_line_benign (fun _ => []) headerOnlyState 0 "Notebooks:".toList
    ((getNodeKeyL_none_iff "Notebooks:".toList).mp rfl) rfl

theorem lastParen_aux {l1 l2 x1 x2 : List Char}
    (h : l1 ++ '(' :: x1 = l2 ++ '(' :: x2) (hx1 : '(' ∉ x1)
    (hlt : l1.length < l2.length) : False := by
  have hd := congrArg (List.drop l1.length) h
  rw [List.drop_left] at hd
  rw [List.drop_append_of_le_length (le_of_lt hlt)] at hd
  cases ht : l2.drop l1.length with
  | nil =>
    have : l2.length ≤ l1.length := by
      have := congrArg List.length ht
      simp at this
      omega
    omega
  | cons y t =>
    rw [ht] at hd
    have hy : '(' = y := by
      have := congrArg (fun t : List Char => t.headI) hd
      simpa using this
    have hx : x1 = t ++ '(' :: x2 := by
      have := congrArg (fun t : List Char => t.tail) hd
      simpa using this
    apply hx1
    rw [hx]
    simp

theorem lastParen_split {l1 l2 x1 x2 : List Char}
    (h : l1 ++ '(' :: x1 = l2 ++ '(' :: x2) (hx1 : '(' ∉ x1) (hx2 : '(' ∉ x2) :
    l1 = l2 ∧ x1 = x2 := by
  rcases lt_trichotomy l1.length l2.length with hlt | heq | hgt
  · exact absurd (lastParen_aux h hx1 hlt) (by simp)
  · have := List.append_inj h heq
    refine ⟨this.1, ?_⟩
    have := this.2
    simpa using this
  · exact absurd (lastParen_aux h.symm hx2 hgt) (by simp)

theorem mkKey_inj {g1 g2 : List Char} {i1 i2 : Nat} (h : mkKey g1 i1 = mkKey g2 i2) :
    g1 = g2 ∧ i1 = i2 := by
  unfold mkKey at h
  have hx1 : '(' ∉ natDigits i1 ++ [')'] := by
    intro hmem
    rcases List.mem_append.mp hmem with hm | hm
    · exact absurd (natDigits_isDigit i1 _ hm) (by decide)
    · simp at hm
  have hx2 : '(' ∉ natDigits i2 ++ [')'] := by
    intro hmem
    rcases List.mem_append.mp hmem with hm | hm
    · exact absurd (natDigits_isDigit i2 _ hm) (by decide)
    · simp at hm
  have hsplit := lastParen_split h hx1 hx2
  refine ⟨hsplit.1, ?_⟩
  have hdig : natDigits i1 = natDigits i2 := by
    have h2 := hsplit.2
    have := List.append_inj' h2 (by rfl)
    exact this.1
  exact natDigits_injective hdig


theorem registerNode_eq (st : ExpState) (nid : Nat) (node : NodeRec)
    (h : nlookup st.nodes nid = some node) :
    registerNode st nid =
      { st with
        instanceMap := aset st.instanceMap node.getGuid
          (nextInst st.instanceMap node.getGuid),
        nodes := nset st.nodes nid
          { node with key := mkKey node.getGuid (nextInst st.instanceMap node.getGuid) },
        registry := aset st.registry
          (mkKey node.getGuid (nextInst st.instanceMap node.getGuid)) nid } := by
  unfold registerNode
  rw [h]
  rfl

theorem sessionStep_register_eq (st : ExpState) (keys : List (List Char))
    (live : List (List Char × Nat)) (node : NodeRec) :
    sessionStep (st, keys, live) (.register node) =
      ({ st with
          nodes := nset (nset st.nodes st.nextId node) st.nextId
            { node with key := mkKey node.getGuid (nextInst st.instanceMap node.getGuid) },
          nextId := st.nextId + 1,
          instanceMap := aset st.instanceMap node.getGuid
            (nextInst st.instanceMap node.getGuid),
          registry := aset st.registry
            (mkKey node.getGuid (nextInst st.instanceMap node.getGuid)) st.nextId },
        keys ++ [mkKey node.getGuid (nextInst st.instanceMap node.getGuid)],
        (mkKey node.getGuid (nextInst st.instanceMap node.getGuid), st.nextId) :: live) := by
  have hlook1 : nlookup (nset st.nodes st.nextId node) st.nextId = some node := by
    rw [nlookup_nset, if_pos rfl]
  have hreg := registerNode_eq
    { st with nodes := nset st.nodes st.nextId node, nextId := st.nextId + 1 }
    st.nextId node hlook1
  simp only [sessionStep]
  rw [hreg]
  have hkey : keyOf
      { st with
        nodes := nset (nset st.nodes st.nextId node) st.nextId
          { node with key := mkKey node.getGuid (nextInst st.instanceMap node.getGuid) },
        nextId := st.nextId + 1,
        instanceMap := aset st.instanceMap node.getGuid
          (nextInst st.instanceMap node.getGuid),
        registry := aset st.registry
          (mkKey node.getGuid (nextInst st.instanceMap node.getGuid)) st.nextId }
      st.nextId = mkKey node.getGuid (nextInst st.instanceMap node.getGuid) := by
    unfold keyOf
    rw [nlookup_nset, if_pos rfl]
  rw [hkey]

theorem sessionStep_inv (t : ExpState × List (List Char) × List (List Char × Nat))
    (op : SessionOp) (h : SessionInv t) : SessionInv (sessionStep t op) := by
  obtain ⟨st, keys, live⟩ := t
  obtain ⟨ha, hnd, hreg⟩ := h
  dsimp only at ha hnd hreg
  cases op with
  | delete => exact ⟨ha, hnd, fun k => rfl⟩
  | register node =>
    rw [sessionStep_register_eq]
    have hnotmem : mkKey node.getGuid (nextInst st.instanceMap node.getGuid) ∉ keys := by
      intro hmem
      obtain ⟨m, hm, him⟩ := ha node.getGuid (nextInst st.instanceMap node.getGuid) hmem
      unfold nextInst at him
      rw [hm] at him
      change m + 1 ≤ m at him
      omega
    refine ⟨?_, ?_, ?_⟩
    · intro g2 i hmem
      dsimp only at hmem ⊢
      rcases List.mem_append.mp hmem with hold | hnew
      · obtain ⟨m, hm, him⟩ := ha g2 i hold
        by_cases hgg : g2 = node.getGuid
        · subst hgg
          refine ⟨nextInst st.instanceMap node.getGuid, ?_, ?_⟩
          · rw [alookup_aset, if_pos rfl]
          · unfold nextInst
            rw [hm]
            change i ≤ m + 1
            omega
        · refine ⟨m, ?_, him⟩
          rw [alookup_aset, if_neg hgg, hm]
      · have hmm : mkKey g2 i =
            mkKey node.getGuid (nextInst st.instanceMap node.getGuid) := by
          simpa using hnew
        obtain ⟨hgg, hieq⟩ := mkKey_inj hmm
        subst hgg
        subst hieq
        refine ⟨nextInst st.instanceMap node.getGuid, ?_, le_refl _⟩
        rw [alookup_aset, if_pos rfl]
    · dsimp only
      rw [List.nodup_append]
      refine ⟨hnd, List.nodup_singleton _, ?_⟩
      intro a ha1 ha2
      simp only [List.mem_singleton] at ha2
      subst ha2
      exact hnotmem ha1
    · intro k
      dsimp only
      rw [alookup_aset]
      simp only [alookup]
      by_cases hkx : k = mkKey node.getGuid (nextInst st.instanceMap node.getGuid)
      · simp [hkx]
      · simp [hkx, hreg k]

theorem sessionRun_inv (ops : List SessionOp) : SessionInv (sessionRun ops) := by
  unfold sessionRun
  have hinit : SessionInv (initExpState, [], []) := by
    refine ⟨?_, List.nodup_nil, fun k => rfl⟩
    intro g i hmem
    simp at hmem
  suffices h : ∀ t, SessionInv t → SessionInv (ops.foldl sessionStep t) from h _ hinit
  induction ops with
  | nil => intro t ht; exact ht
  | cons op rest ih => intro t ht; exact ih _ (sessionStep_inv t op ht)

/-- C8: over any session of registrations and deleteNodes clearings starting
from the empty state, the keys assigned by registerNode are pairwise
distinct (instance numbers per guid are never reused because instanceMap
survives deleteNodes); deleteNodes clears only the registry; and
getNodeByInstance on guid(i) returns exactly what the registrations since
the last clearing associate with that key, or None. -/
theorem registry_keys_unique (ops : List SessionOp) :
    (sessionRun ops).2.1.Nodup ∧
    (∀ g i, getNodeByInstance (sessionRun ops).1 g i =
      alookup (sessionRun ops).2.2 (mkKey g i)) ∧
    deleteNodes (sessionRun ops).1 = { (sessionRun ops).1 with registry := [] } := by
  have h := sessionRun_inv ops
  refine ⟨h.2.1, ?_, rfl⟩
  intro g i
  unfold getNodeByInstance getNode
  exact h.2.2 (mkKey g i)

theorem alookup_none_iff {β : Type} (l : List (List Char × β)) (k : List Char) :
    alookup l k = none ↔ k ∉ l.map Prod.fst := by
  induction l with
  | nil =>
    constructor
    · intro _
      simp
    · intro _
      rfl
  | cons p rest ih =>
    obtain ⟨k0, v0⟩ := p
    have hstep : alookup ((k0, v0) :: rest) k = if k = k0 then some v0 else alookup rest k :=
      rfl
    rw [hstep]
    by_cases hk : k = k0
    · subst hk
      rw [if_pos rfl]
      constructor
      · intro h
        exact absurd h (by simp)
      · intro h
        exact absurd (List.mem_map_of_mem Prod.fst (List.mem_cons_self _ _)) h
    · rw [if_neg hk, ih]
      constructor
      · intro h hmem
        simp only [List.map_cons, List.mem_cons] at hmem
        rcases hmem with he | hm
        · exact hk he
        · exact h hm
      · intro h hm
        exact h (by simp [hm])

/-- C9: getNode is total and returns None exactly when the key is absent
from the registry; applyChanges and activateNode dereference its result
without a None check, so a line carrying an unregistered key drives both
into the attribute-error-on-None branch; activateNode is free of that error
as soon as every key parsed from the line is registered. -/
theorem getNode_total_and_guarded :
    (∀ (st : ExpState) (k : List Char),
      getNode st k = none ↔ k ∉ st.registry.map Prod.fst) ∧
    applyChanges (fun _ => []) staleKeyState = .error .noneAttr ∧
    activateNode (fun _ => []) staleKeyState "stale x[missing]".toList =
      .error .noneAttr ∧
    (∀ (oracle : List Char → List Note) (st : ExpState) (line : List Char),
      (∀ k, getNodeKeyL line = some k → k ∈ st.registry.map Prod.fst) →
      ∀ e, activateNode oracle st line ≠ .error e) := by
  refine ⟨?_, ?_, ?_, ?_⟩
  · intro st k
    exact alookup_none_iff st.registry k
  · rfl
  · rfl
  · intro oracle st line h e
    unfold activateNode
    cases hk : getNodeKeyL line with
    | none => simp
    | some k =>
      dsimp only
      have hmem := h k hk
      cases hv : getNode st k with
      | none =>
        exact absurd ((alookup_none_iff st.registry k).mp hv) (by simp [hmem])
      | some nid => simp

/-- C9 witness: on a line whose parsed key is registered, activateNode does
not hit the None dereference. -/
theorem getNode_total_and_guarded_witness :
    ∀ e, activateNode (fun _ => []) oneNoteState "x[k]".toList ≠ .error e :=
  getNode_total_and_guarded.2.2.2 (fun _ => []) oneNoteState "x[k]".toList
    (by
      intro k hk
      have h2 : some ("k".toList) = some k := by rw [← hk]; rfl
      cases h2
      simp [oneNoteState, initExpState])

theorem setNodeExpanded_eq (st : ExpState) (nid : Nat) (b : Bool) (n : NodeRec)
    (h : nlookup st.nodes nid = some n) :
    setNodeExpanded st nid b =
      { st with nodes := nset st.nodes nid { n with expanded := b } } := by
  unfold setNodeExpanded
  rw [h]

theorem setNodeLoaded_eq_notebook (st : ExpState) (nid : Nat) (n : NodeRec)
    (nb : Notebook) (name : List Char) (l : Bool)
    (h : nlookup st.nodes nid = some n) (hdata : n.data = .notebookData nb name l) :
    setNodeLoaded st nid =
      { st with
        nodes := nset st.nodes nid { n with data := .notebookData nb name true } } := by
  unfold setNodeLoaded
  rw [h]
  dsimp only
  rw [hdata]

theorem setNodeLoaded_eq_tag (st : ExpState) (nid : Nat) (n : NodeRec)
    (t : Tag) (name : List Char) (l : Bool)
    (h : nlookup st.nodes nid = some n) (hdata : n.data = .tagData t name l) :
    setNodeLoaded st nid =
      { st with
        nodes := nset st.nodes nid { n with data := .tagData t name true } } := by
  unfold setNodeLoaded
  rw [h]
  dsimp only
  rw [hdata]

theorem addNoteTo_eq (st : ExpState) (pid : Nat) (note : Note) (p : NodeRec)
    (hp : nlookup st.nodes pid = some p) (hpid : pid ≠ st.nextId) :
    addNoteTo st pid note =
      { st with
        nodes := nset (nset (nset (nset st.nodes st.nextId (mkNoteNode note (p.indent + 1)))
            st.nextId
            { mkNoteNode note (p.indent + 1) with
              key := mkKey note.guid (nextInst st.instanceMap note.guid) })
            st.nextId
            { mkNoteNode note (p.indent + 1) with
              key := mkKey note.guid (nextInst st.instanceMap note.guid),
              parent := some pid })
            pid { p with children := p.children ++ [st.nextId] },
        nextId := st.nextId + 1,
        instanceMap := aset st.instanceMap note.guid (nextInst st.instanceMap note.guid),
        registry := aset st.registry (mkKey note.guid (nextInst st.instanceMap note.guid))
          st.nextId } := by
  unfold addNoteTo
  rw [hp]
  dsimp only
  have hlook1 : nlookup (nset st.nodes st.nextId (mkNoteNode note (p.indent + 1)))
      st.nextId = some (mkNoteNode note (p.indent + 1)) := by
    rw [nlookup_nset, if_pos rfl]
  rw [registerNode_eq _ _ _ hlook1]
  unfold addChildOp
  have hlook2 : nlookup (nset (nset st.nodes st.nextId (mkNoteNode note (p.indent + 1)))
      st.nextId
      { mkNoteNode note (p.indent + 1) with
        key := mkKey (mkNoteNode note (p.indent + 1)).getGuid
          (nextInst st.instanceMap (mkNoteNode note (p.indent + 1)).getGuid) })
      st.nextId =
      some { mkNoteNode note (p.indent + 1) with
        key := mkKey (mkNoteNode note (p.indent + 1)).getGuid
          (nextInst st.instanceMap (mkNoteNode note (p.indent + 1)).getGuid) } := by
    rw [nlookup_nset, if_pos rfl]
  rw [hlook2]
  dsimp only
  rw [nlookup_nset, if_neg hpid, nlookup_nset, if_neg hpid, nlookup_nset, if_neg hpid, hp]
  rfl

theorem addNoteTo_facts (st : ExpState) (pid : Nat) (note : Note) (p : NodeRec)
    (hp : nlookup st.nodes pid = some p) (hpid : pid ≠ st.nextId) :
    (addNoteTo st pid note).nextId = st.nextId + 1 ∧
    (∀ q, q ≠ pid → q ≠ st.nextId →
      nlookup (addNoteTo st pid note).nodes q = nlookup st.nodes q) ∧
    nlookup (addNoteTo st pid note).nodes pid =
      some { p with children := p.children ++ [st.nextId] } ∧
    (addNoteTo st pid note).modifiedNodes = st.modifiedNodes ∧
    (addNoteTo st pid note).buffer = st.buffer := by
  rw [addNoteTo_eq st pid note p hp hpid]
  refine ⟨rfl, ?_, ?_, rfl, rfl⟩
  · intro q hq1 hq2
    rw [nlookup_nset, if_neg hq1, nlookup_nset, if_neg hq2, nlookup_nset, if_neg hq2,
      nlookup_nset, if_neg hq2]
  · rw [nlookup_nset, if_pos rfl]

theorem addNoteTo_fold_facts (notes : List Note) :
    ∀ (st : ExpState) (pid : Nat) (p : NodeRec),
      nlookup st.nodes pid = some p → pid < st.nextId →
      ((notes.foldl (fun s note => addNoteTo s pid note) st).nextId =
        st.nextId + notes.length) ∧
      (∀ q, q ≠ pid → q < st.nextId →
        nlookup ((notes.foldl (fun s note => addNoteTo s pid note) st).nodes) q =
          nlookup st.nodes q) ∧
      (∃ fresh, nlookup ((notes.foldl (fun s note => addNoteTo s pid note) st).nodes) pid =
        some { p with children := p.children ++ fresh }) ∧
      ((notes.foldl (fun s note => addNoteTo s pid note) st).modifiedNodes =
        st.modifiedNodes) ∧
      ((notes.foldl (fun s note => addNoteTo s pid note) st).buffer = st.buffer) := by
  induction notes with
  | nil =>
    intro st pid p hp _
    refine ⟨by simp, fun q _ _ => rfl, ⟨[], ?_⟩, rfl, rfl⟩
    simp only [List.foldl_nil]
    rw [hp]
    congr 1
    cases p
    simp
  | cons note rest ih =>
    intro st pid p hp hlt
    obtain ⟨hnext, hother, hpidlook, hmod, hbuf⟩ :=
      addNoteTo_facts st pid note p hp (by omega)
    have hlt2 : pid < (addNoteTo st pid note).nextId := by omega
    obtain ⟨inext, iother, ⟨fresh, ipid⟩, imod, ibuf⟩ :=
      ih (addNoteTo st pid note) pid { p with children := p.children ++ [st.nextId] }
        hpidlook hlt2
    refine ⟨?_, ?_, ?_, ?_, ?_⟩
    · simp only [List.foldl_cons, List.length_cons]
      rw [inext, hnext]
      omega
    · intro q hq1 hq2
      simp only [List.foldl_cons]
      rw [iother q hq1 (by omega), hother q hq1 (by omega)]
    · refine ⟨[st.nextId] ++ fresh, ?_⟩
      simp only [List.foldl_cons]
      rw [ipid]
      congr 1
      cases p
      simp
    · simp only [List.foldl_cons]
      rw [imod, hmod]
    · simp only [List.foldl_cons]
      rw [ibuf, hbuf]

theorem nlookup_nset_self {β : Type} (l : List (Nat × β)) (k : Nat) (v : β) :
    nlookup (nset l k v) k = some v := by
  rw [nlookup_nset, if_pos rfl]

theorem notebookExpand_props (oracle : List Char → List Note) (st : ExpState) (nid : Nat)
    (n : NodeRec) (nb : Notebook) (name : List Char) (loaded : Bool)
    (h : nlookup st.nodes nid = some n) (hdata : n.data = .notebookData nb name loaded)
    (hlt : nid < st.nextId) :
    (∀ q, q ≠ nid → q < st.nextId →
      nlookup (notebookExpand oracle st nid).nodes q = nlookup st.nodes q) ∧
    (∃ n2, nlookup (notebookExpand oracle st nid).nodes nid = some n2 ∧
      n2.expanded = true ∧ n2.data = .notebookData nb name true ∧
      n2.parent = n.parent ∧ n2.indent = n.indent ∧ n2.key = n.key ∧
      (loaded = true → n2.children = n.children)) ∧
    (notebookExpand oracle st nid).modifiedNodes = st.modifiedNodes ∧
    (notebookExpand oracle st nid).buffer = st.buffer := by
  unfold notebookExpand
  rw [h]
  dsimp only
  rw [hdata]
  dsimp only
  cases loaded with
  | true =>
    rw [if_pos rfl]
    rw [setNodeExpanded_eq st nid true n h]
    refine ⟨?_, ⟨{ n with expanded := true }, ?_, rfl, ?_, rfl, rfl, rfl, fun _ => rfl⟩,
      rfl, rfl⟩
    · intro q hq _
      dsimp only
      rw [nlookup_nset, if_neg hq]
    · dsimp only
      exact nlookup_nset_self _ _ _
    · dsimp only
      rw [hdata]
  | false =>
    rw [if_neg (by simp)]
    have h0 : nlookup ({ st with
        nodes := nset st.nodes nid
          { n with children := [], data := NodeData.notebookData nb name false } }).nodes
          nid =
        some { n with children := [], data := NodeData.notebookData nb name false } :=
      nlookup_nset_self _ _ _
    obtain ⟨fnext, fother, ⟨fresh, fpid⟩, fmod, fbuf⟩ :=
      addNoteTo_fold_facts (oracle (nbQuery nb.name))
        { st with
          nodes := nset st.nodes nid
            { n with children := [], data := NodeData.notebookData nb name false } }
        nid { n with children := [], data := NodeData.notebookData nb name false } h0 hlt
    rw [setNodeLoaded_eq_notebook _ nid _ nb name false fpid rfl]
    rw [setNodeExpanded_eq _ nid true _ (nlookup_nset_self _ _ _)]
    refine ⟨?_, ⟨_, nlookup_nset_self _ _ _, rfl, rfl, rfl, rfl, rfl,
      fun hc => absurd hc (by simp)⟩, ?_, ?_⟩
    · intro q hq hqlt
      dsimp only
      rw [nlookup_nset, if_neg hq, nlookup_nset, if_neg hq]
      rw [fother q hq hqlt]
      dsimp only
      rw [nlookup_nset, if_neg hq]
    · dsimp only
      rw [fmod]
    · dsimp only
      rw [fbuf]

theorem tagExpand_props (oracle : List Char → List Note) (st : ExpState) (nid : Nat)
    (n : NodeRec) (t : Tag) (name : List Char) (loaded : Bool)
    (h : nlookup st.nodes nid = some n) (hdata : n.data = .tagData t name loaded)
    (hlt : nid < st.nextId) :
    (∀ q, q ≠ nid → q < st.nextId →
      nlookup (tagExpand oracle st nid).nodes q = nlookup st.nodes q) ∧
    (∃ n2, nlookup (tagExpand oracle st nid).nodes nid = some n2 ∧
      n2.expanded = true ∧ n2.data = .tagData t name true ∧
      n2.parent = n.parent ∧ n2.indent = n.indent ∧ n2.key = n.key ∧
      (loaded = true → n2.children = n.children)) ∧
    (tagExpand oracle st nid).modifiedNodes = st.modifiedNodes ∧
    (tagExpand oracle st nid).buffer = st.buffer := by
  unfold tagExpand
  rw [h]
  dsimp only
  rw [hdata]
  dsimp only
  cases loaded with
  | true =>
    rw [if_pos rfl]
    rw [setNodeExpanded_eq st nid true n h]
    refine ⟨?_, ⟨{ n with expanded := true }, ?_, rfl, ?_, rfl, rfl, rfl, fun _ => rfl⟩,
      rfl, rfl⟩
    · intro q hq _
      dsimp only
      rw [nlookup_nset, if_neg hq]
    · dsimp only
      exact nlookup_nset_self _ _ _
    · dsimp only
      rw [hdata]
  | false =>
    rw [if_neg (by simp)]
    obtain ⟨fnext, fother, ⟨fresh, fpid⟩, fmod, fbuf⟩ :=
      addNoteTo_fold_facts (sortNotesByTitle (oracle (tagQuery t.name))) st nid n h hlt
    rw [setNodeLoaded_eq_tag _ nid _ t name false fpid (by exact hdata)]
    rw [setNodeExpanded_eq _ nid true _ (nlookup_nset_self _ _ _)]
    refine ⟨?_, ⟨_, nlookup_nset_self _ _ _, rfl, rfl, rfl, rfl, rfl,
      fun hc => absurd hc (by simp)⟩, ?_, ?_⟩
    · intro q hq hqlt
      dsimp only
      rw [nlookup_nset, if_neg hq, nlookup_nset, if_neg hq]
      rw [fother q hq hqlt]
    · dsimp only
      rw [fmod]
    · dsimp only
      rw [fbuf]

theorem renderChildren_length (nodes : List (Nat × NodeRec)) (cs : List Nat)
    (h : ∀ c ∈ cs, ∃ r, nlookup nodes c = some r) :
    ((cs.map (fun cid =>
      match nlookup nodes cid with
      | some c => [renderNoteLine c]
      | none => [])).flatten).length = cs.length := by
  induction cs with
  | nil => rfl
  | cons c rest ih =>
    obtain ⟨r, hr⟩ := h c (by simp)
    simp only [List.map_cons, List.flatten_cons, List.length_append, hr]
    rw [ih (fun x hx => h x (by simp [hx]))]
    simp
    omega

theorem renderNode_length_closed (nodes : List (Nat × NodeRec)) (n : NodeRec)
    (hkind : n.isNote = false) (hexp : n.expanded = false) :
    (renderNode nodes n).length = 1 := by
  unfold renderNode NodeRec.isNote at *
  cases hd : n.data with
  | noteData note title g =>
    rw [hd] at hkind
    simp at hkind
  | notebookData nb name loaded =>
    unfold renderNotebookNode
    rw [hd, hexp]
    simp
  | tagData t name loaded =>
    unfold renderTagNode
    rw [hd, hexp]
    simp

theorem renderNode_length_open (nodes : List (Nat × NodeRec)) (n : NodeRec)
    (hkind : n.isNote = false) (hexp : n.expanded = true)
    (hch : ∀ c ∈ n.children, ∃ r, nlookup nodes c = some r) :
    (renderNode nodes n).length = 1 + n.children.length := by
  unfold renderNode NodeRec.isNote at *
  cases hd : n.data with
  | noteData note title g =>
    rw [hd] at hkind
    simp at hkind
  | notebookData nb name loaded =>
    unfold renderNotebookNode
    rw [hd, hexp]
    simp only [if_true, List.length_cons]
    rw [renderChildren_length nodes n.children hch]
    omega
  | tagData t name loaded =>
    unfold renderTagNode
    rw [hd, hexp]
    simp only [if_true, List.length_cons]
    rw [renderChildren_length nodes n.children hch]
    omega

theorem nodeToggle_eq_of_closed (oracle : List Char → List Note) (st : ExpState)
    (nid : Nat) (n1 : NodeRec) (hl : nlookup st.nodes nid = some n1)
    (he : n1.expanded = false) :
    nodeToggle oracle st nid = nodeExpand oracle st nid := by
  unfold nodeToggle
  rw [hl]
  dsimp only
  rw [if_neg (by simp [he])]

theorem nodeToggle_eq_of_open (oracle : List Char → List Note) (st : ExpState)
    (nid : Nat) (n1 : NodeRec) (hl : nlookup st.nodes nid = some n1)
    (he : n1.expanded = true) :
    nodeToggle oracle st nid =
      { st with nodes := nset st.nodes nid { n1 with expanded := false } } := by
  unfold nodeToggle
  rw [hl]
  dsimp only
  rw [if_pos he]
  exact setNodeExpanded_eq _ _ _ _ hl

theorem nodeExpand_eq_notebook (oracle : List Char → List Note) (st : ExpState)
    (nid : Nat) (n1 : NodeRec) (nb : Notebook) (name : List Char) (loaded : Bool)
    (hl : nlookup st.nodes nid = some n1) (hd : n1.data = .notebookData nb name loaded) :
    nodeExpand oracle st nid = notebookExpand oracle st nid := by
  unfold nodeExpand
  rw [hl]
  dsimp only
  rw [hd]

theorem nodeExpand_eq_tag (oracle : List Char → List Note) (st : ExpState)
    (nid : Nat) (n1 : NodeRec) (t : Tag) (name : List Char) (loaded : Bool)
    (hl : nlookup st.nodes nid = some n1) (hd : n1.data = .tagData t name loaded) :
    nodeExpand oracle st nid = tagExpand oracle st nid := by
  unfold nodeExpand
  rw [hl]
  dsimp only
  rw [hd]

/-- C4: a collapsed notebook or tag node renders exactly one line and an
expanded one renders one line for itself plus one per child note in children
order; toggling flips the expanded flag; toggling twice restores the
rendered line count (the first expansion may load children, after which the
node stays loaded). -/
theorem collapsible_outline (oracle : List Char → List Note) (st : ExpState) (nid : Nat)
    (n : NodeRec)
    (h : nlookup st.nodes nid = some n)
    (hkind : n.isNote = false)
    (hload : n.expanded = true → nodeLoaded n = true)
    (hch : ∀ c ∈ n.children, ∃ r, nlookup st.nodes c = some r)
    (hchlt : ∀ c ∈ n.children, c < st.nextId)
    (hlt : nid < st.nextId) :
    (n.expanded = false → (renderNode st.nodes n).length = 1) ∧
    (n.expanded = true → (renderNode st.nodes n).length = 1 + n.children.length) ∧
    ((∃ n1, nlookup (nodeToggle oracle st nid).nodes nid = some n1 ∧
       n1.expanded = !n.expanded) ∧
     (∃ n2, nlookup (nodeToggle oracle (nodeToggle oracle st nid) nid).nodes nid =
        some n2 ∧
       (renderNode (nodeToggle oracle (nodeToggle oracle st nid) nid).nodes n2).length =
         (renderNode st.nodes n).length)) := by
  refine ⟨fun hexp => renderNode_length_closed _ _ hkind hexp,
         fun hexp => renderNode_length_open _ _ hkind hexp hch, ?_⟩
  cases hexp : n.expanded with
  | true =>
    have hloadT : nodeLoaded n = true := hload hexp
    have ht1 := nodeToggle_eq_of_open oracle st nid n h hexp
    have hlook1 : nlookup (nodeToggle oracle st nid).nodes nid =
        some { n with expanded := false } := by
      rw [ht1]
      exact nlookup_nset_self _ _ _
    have hlt1 : nid < (nodeToggle oracle st nid).nextId := by
      rw [ht1]
      exact hlt
    have hflip : ∃ n1, nlookup (nodeToggle oracle st nid).nodes nid = some n1 ∧
        n1.expanded = !true := ⟨{ n with expanded := false }, hlook1, rfl⟩
    have ht2a := nodeToggle_eq_of_closed oracle (nodeToggle oracle st nid) nid
      { n with expanded := false } hlook1 rfl
    cases hd : n.data with
    | noteData a b c =>
      unfold NodeRec.isNote at hkind
      rw [hd] at hkind
      simp at hkind
    | notebookData nb name loaded =>
      have hloaded : loaded = true := by
        unfold nodeLoaded at hloadT
        rw [hd] at hloadT
        exact hloadT
      subst hloaded
      have ht2 : nodeToggle oracle (nodeToggle oracle st nid) nid =
          notebookExpand oracle (nodeToggle oracle st nid) nid := by
        rw [ht2a]
        exact nodeExpand_eq_notebook oracle _ nid { n with expanded := false } nb name
          true hlook1 (by dsimp only; rw [hd])
      obtain ⟨pother, ⟨n2, hn2look, hn2exp, hn2data, _, _, _, hn2ch⟩, _, _⟩ :=
        notebookExpand_props oracle (nodeToggle oracle st nid) nid
          { n with expanded := false } nb name true hlook1 (by dsimp only; rw [hd]) hlt1
      have hch2 : n2.children = n.children := hn2ch rfl
      refine ⟨hflip, ⟨n2, by rw [ht2]; exact hn2look, ?_⟩⟩
      have hn2kind : n2.isNote = false := by
        unfold NodeRec.isNote
        rw [hn2data]
      have hlen2 : (renderNode (nodeToggle oracle (nodeToggle oracle st nid) nid).nodes
          n2).length = 1 + n2.children.length := by
        apply renderNode_length_open _ _ hn2kind hn2exp
        intro c hc
        rw [hch2] at hc
        by_cases hcn : c = nid
        · subst hcn
          exact ⟨n2, by rw [ht2]; exact hn2look⟩
        · obtain ⟨r, hr⟩ := hch c hc
          refine ⟨r, ?_⟩
          rw [ht2, pother c hcn (by rw [ht1]; exact hchlt c hc), ht1]
          dsimp only
          rw [nlookup_nset, if_neg hcn]
          exact hr
      rw [hlen2, hch2, renderNode_length_open st.nodes n hkind hexp hch]
    | tagData t name loaded =>
      have hloaded : loaded = true := by
        unfold nodeLoaded at hloadT
        rw [hd] at hloadT
        exact hloadT
      subst hloaded
      have ht2 : nodeToggle oracle (nodeToggle oracle st nid) nid =
          tagExpand oracle (nodeToggle oracle st nid) nid := by
        rw [ht2a]
        exact nodeExpand_eq_tag oracle _ nid { n with expanded := false } t name
          true hlook1 (by dsimp only; rw [hd])
      obtain ⟨pother, ⟨n2, hn2look, hn2exp, hn2data, _, _, _, hn2ch⟩, _, _⟩ :=
        tagExpand_props oracle (nodeToggle oracle st nid) nid
          { n with expanded := false } t name true hlook1 (by dsimp only; rw [hd]) hlt1
      have hch2 : n2.children = n.children := hn2ch rfl
      refine ⟨hflip, ⟨n2, by rw [ht2]; exact hn2look, ?_⟩⟩
      have hn2kind : n2.isNote = false := by
        unfold NodeRec.isNote
        rw [hn2data]
      have hlen2 : (renderNode (nodeToggle oracle (nodeToggle oracle st nid) nid).nodes
          n2).length = 1 + n2.children.length := by
        apply renderNode_length_open _ _ hn2kind hn2exp
        intro c hc
        rw [hch2] at hc
        by_cases hcn : c = nid
        · subst hcn
          exact ⟨n2, by rw [ht2]; exact hn2look⟩
        · obtain ⟨r, hr⟩ := hch c hc
          refine ⟨r, ?_⟩
          rw [ht2, pother c hcn (by rw [ht1]; exact hchlt c hc), ht1]
          dsimp only
          rw [nlookup_nset, if_neg hcn]
          exact hr
      rw [hlen2, hch2, renderNode_length_open st.nodes n hkind hexp hch]
  | false =>
    have ht1a := nodeToggle_eq_of_closed oracle st nid n h hexp
    cases hd : n.data with
    | noteData a b c =>
      unfold NodeRec.isNote at hkind
      rw [hd] at hkind
      simp at hkind
    | notebookData nb name loaded =>
      have hte : nodeToggle oracle st nid = notebookExpand oracle st nid := by
        rw [ht1a]
        exact nodeExpand_eq_notebook oracle st nid n nb name loaded h hd
      obtain ⟨pother, ⟨n1, hn1look, hn1exp, hn1data, _, _, _, _⟩, _, _⟩ :=
        notebookExpand_props oracle st nid n nb name loaded h hd hlt
      have hlook1 : nlookup (nodeToggle oracle st nid).nodes nid = some n1 := by
        rw [hte]
        exact hn1look
      have ht2 := nodeToggle_eq_of_open oracle (nodeToggle oracle st nid) nid n1
        hlook1 hn1exp
      refine ⟨⟨n1, hlook1, by simp [hn1exp]⟩,
        ⟨{ n1 with expanded := false }, by rw [ht2]; exact nlookup_nset_self _ _ _, ?_⟩⟩
      have hkindf : ({ n1 with expanded := false } : NodeRec).isNote = false := by
        unfold NodeRec.isNote
        dsimp only
        rw [hn1data]
      rw [renderNode_length_closed _ _ hkindf rfl,
        renderNode_length_closed st.nodes n hkind hexp]
    | tagData t name loaded =>
      have hte : nodeToggle oracle st nid = tagExpand oracle st nid := by
        rw [ht1a]
        exact nodeExpand_eq_tag oracle st nid n t name loaded h hd
      obtain ⟨pother, ⟨n1, hn1look, hn1exp, hn1data, _, _, _, _⟩, _, _⟩ :=
        tagExpand_props oracle st nid n t name loaded h hd hlt
      have hlook1 : nlookup (nodeToggle oracle st nid).nodes nid = some n1 := by
        rw [hte]
        exact hn1look
      have ht2 := nodeToggle_eq_of_open oracle (nodeToggle oracle st nid) nid n1
        hlook1 hn1exp
      refine ⟨⟨n1, hlook1, by simp [hn1exp]⟩,
        ⟨{ n1 with expanded := false }, by rw [ht2]; exact nlookup_nset_self _ _ _, ?_⟩⟩
      have hkindf : ({ n1 with expanded := false } : NodeRec).isNote = false := by
        unfold NodeRec.isNote
        dsimp only
        rw [hn1data]
      rw [renderNode_length_closed _ _ hkindf rfl,
        renderNode_length_closed st.nodes n hkind hexp]

/-- C4 witness: toggling the concrete notebook node flips its expanded flag
and toggling twice restores the rendered line count. -/
theorem collapsible_outline_witness :
    ((∃ n1, nlookup (nodeToggle (fun _ => []) nbWitnessState 0).nodes 0 = some n1 ∧
       n1.expanded = !(mkNotebookNode ⟨"g".toList, "Work".toList⟩).expanded) ∧
     (∃ n2, nlookup (nodeToggle (fun _ => [])
          (nodeToggle (fun _ => []) nbWitnessState 0) 0).nodes 0 = some n2 ∧
       (renderNode (nodeToggle (fun _ => [])
          (nodeToggle (fun _ => []) nbWitnessState 0) 0).nodes n2).length =
         (renderNode nbWitnessState.nodes
           (mkNotebookNode ⟨"g".toList, "Work".toList⟩)).length)) :=
  (collapsible_outline (fun _ => []) nbWitnessState 0
    (mkNotebookNode ⟨"g".toList, "Work".toList⟩) rfl rfl (by decide)
    (by intro c hc; exact absurd hc (by simp [mkNotebookNode]))
    (by intro c hc; exact absurd hc (by simp [mkNotebookNode])) (by decide)).2.2

theorem append_bracket_form (a k : List Char) (c : Char) :
    a ++ ' ' :: c :: '[' :: (k ++ [']']) = (a ++ ' ' :: c :: '[' :: k) ++ [']'] := by
  simp

theorem renderNoteLine_ends (n : NodeRec) :
    ∃ l2, renderNoteLine n = l2 ++ [']'] := by
  refine ⟨padTo 48 (List.replicate (n.indent * 4) ' ' ++ noteTitle n) ++
    ' ' :: 'n' :: '[' :: n.key, ?_⟩
  unfold renderNoteLine
  simp

theorem renderNode_lines_end (nodes : List (Nat × NodeRec)) (n : NodeRec) :
    ∀ line ∈ renderNode nodes n, ∃ l2, line = l2 ++ [']'] := by
  intro line hline
  unfold renderNode at hline
  have hchild : ∀ (cs : List Nat),
      line ∈ (cs.map (fun cid =>
        match nlookup nodes cid with
        | some c => [renderNoteLine c]
        | none => [])).flatten → ∃ l2, line = l2 ++ [']'] := by
    intro cs hmem
    rw [List.mem_flatten] at hmem
    obtain ⟨ls, hls, hline2⟩ := hmem
    rw [List.mem_map] at hls
    obtain ⟨cid, _, hf⟩ := hls
    cases hc : nlookup nodes cid with
    | none =>
      rw [hc] at hf
      subst hf
      simp at hline2
    | some c =>
      rw [hc] at hf
      subst hf
      simp at hline2
      subst hline2
      exact renderNoteLine_ends c
  cases hd : n.data with
  | noteData a b c =>
    rw [hd] at hline
    simp only [List.mem_singleton] at hline
    subst hline
    exact renderNoteLine_ends n
  | notebookData nb name loaded =>
    rw [hd] at hline
    unfold renderNotebookNode at hline
    rw [hd] at hline
    simp only [List.mem_cons] at hline
    rcases hline with hself | hrest
    · subst hself
      exact ⟨_, append_bracket_form _ _ _⟩
    · by_cases hexp : n.expanded
      · rw [if_pos hexp] at hrest
        exact hchild n.children hrest
      · rw [if_neg hexp] at hrest
        simp at hrest
  | tagData t name loaded =>
    rw [hd] at hline
    unfold renderTagNode at hline
    rw [hd] at hline
    simp only [List.mem_cons] at hline
    rcases hline with hself | hrest
    · subst hself
      exact ⟨_, append_bracket_form _ _ _⟩
    · by_cases hexp : n.expanded
      · rw [if_pos hexp] at hrest
        exact hchild n.children hrest
      · rw [if_neg hexp] at hrest
        simp at hrest

theorem renderSection_lines_end (st : ExpState) (ids : List Nat) :
    ∀ line ∈ renderSection st ids, ∃ l2, line = l2 ++ [']'] := by
  intro line hline
  unfold renderSection at hline
  rw [List.mem_flatten] at hline
  obtain ⟨ls, hls, hline2⟩ := hline
  rw [List.mem_map] at hls
  obtain ⟨nid, _, hf⟩ := hls
  cases hc : nlookup st.nodes nid with
  | none =>
    rw [hc] at hf
    subst hf
    simp at hline2
  | some n =>
    rw [hc] at hf
    subst hf
    exact renderNode_lines_end st.nodes n line hline2

theorem header_not_bracketed (s : List Char) (hs : s.getLast? = some ':') :
    ∀ l2, s ≠ l2 ++ [']'] := by
  intro l2 he
  rw [he] at hs
  simp at hs

/-- C5: with a buffer attached, render emits the notebook header and
separator first, then every notebook node in list order; a tags section
appears exactly when tags exist and a search results section exactly when
search results exist, in that order; a note line starts with four spaces per
indent level, and addNote places a child one indent level below its
parent. -/
theorem render_structure (st : ExpState) (hbuf : st.hasBuffer = true) :
    explorerRender st =
      some (("Notebooks:".toList :: sepLine :: renderSection st st.notebooks)
        ++ (if st.tags ≠ [] then
              [] :: "Tags:".toList :: sepLine :: renderSection st st.tags else [])
        ++ (if st.searchResults ≠ [] then
              [] :: "Search Results:".toList :: sepLine ::
                renderSection st st.searchResults
            else [])) ∧
    (explorerRenderContent st).take 2 = ["Notebooks:".toList, sepLine] ∧
    ("Tags:".toList ∈ explorerRenderContent st ↔ st.tags ≠ []) ∧
    ("Search Results:".toList ∈ explorerRenderContent st ↔ st.searchResults ≠ []) ∧
    (∀ n : NodeRec, (renderNoteLine n).take (n.indent * 4) =
      List.replicate (n.indent * 4) ' ') ∧
    (∀ (st2 : ExpState) (pid : Nat) (note : Note) (p : NodeRec),
      nlookup st2.nodes pid = some p → pid ≠ st2.nextId →
      ∃ crec, nlookup (addNoteTo st2 pid note).nodes st2.nextId = some crec ∧
        crec.indent = p.indent + 1) := by
  refine ⟨?_, rfl, ?_, ?_, ?_, ?_⟩
  · unfold explorerRender
    rw [if_pos hbuf]
    rfl
  · constructor
    · intro hmem
      by_contra htag
      unfold explorerRenderContent at hmem
      have hnt : ¬(st.tags ≠ []) := by simp [htag]
      rw [if_neg hnt] at hmem
      simp only [List.append_nil, List.mem_append, List.mem_cons] at hmem
      rcases hmem with (h1 | h2 | h3) | h4
      · exact absurd h1 (by decide)
      · exact absurd h2 (by decide)
      · obtain ⟨l2, hl2⟩ := renderSection_lines_end st st.notebooks _ h3
        exact header_not_bracketed "Tags:".toList (by decide) l2 hl2
      · by_cases hs : st.searchResults ≠ []
        · rw [if_pos hs] at h4
          simp only [List.mem_cons] at h4
          rcases h4 with h5 | h6 | h7 | h8
          · exact absurd h5 (by decide)
          · exact absurd h6 (by decide)
          · exact absurd h7 (by decide)
          · obtain ⟨l2, hl2⟩ := renderSection_lines_end st st.searchResults _ h8
            exact header_not_bracketed "Tags:".toList (by decide) l2 hl2
        · rw [if_neg hs] at h4
          simp at h4
    · intro htag
      unfold explorerRenderContent
      rw [if_pos htag]
      simp
  · constructor
    · intro hmem
      by_contra hsearch
      unfold explorerRenderContent at hmem
      have hns : ¬(st.searchResults ≠ []) := by simp [hsearch]
      rw [if_neg hns] at hmem
      simp only [List.append_nil, List.mem_append, List.mem_cons] at hmem
      rcases hmem with (h1 | h2 | h3) | h4
      · exact absurd h1 (by decide)
      · exact absurd h2 (by decide)
      · obtain ⟨l2, hl2⟩ := renderSection_lines_end st st.notebooks _ h3
        exact header_not_bracketed "Search Results:".toList (by decide) l2 hl2
      · by_cases ht : st.tags ≠ []
        · rw [if_pos ht] at h4
          simp only [List.mem_cons] at h4
          rcases h4 with h5 | h6 | h7 | h8
          · exact absurd h5 (by decide)
          · exact absurd h6 (by decide)
          · exact absurd h7 (by decide)
          · obtain ⟨l2, hl2⟩ := renderSection_lines_end st st.tags _ h8
            exact header_not_bracketed "Search Results:".toList (by decide) l2 hl2
        · rw [if_neg ht] at h4
          simp at h4
    · intro hsearch
      unfold explorerRenderContent
      rw [if_pos hsearch]
      simp
  · intro n
    have hform : renderNoteLine n = List.replicate (n.indent * 4) ' ' ++
        (noteTitle n ++
          (List.replicate
            (48 - (List.replicate (n.indent * 4) ' ' ++ noteTitle n).length) ' ' ++
          ' ' :: 'n' :: '[' :: (n.key ++ [']']))) := by
      unfold renderNoteLine padTo
      simp
    rw [hform]
    exact List.take_left' (List.length_replicate _ _)
  · intro st2 pid note p hp hpid
    rw [addNoteTo_eq st2 pid note p hp hpid]
    refine ⟨{ mkNoteNode note (p.indent + 1) with
      key := mkKey note.guid (nextInst st2.instanceMap note.guid),
      parent := some pid }, ?_, rfl⟩
    rw [nlookup_nset, if_neg (fun he => hpid he.symm), nlookup_nset, if_pos rfl]

/-- C5 witness: at a concrete buffer-attached state the tags section is
present exactly when tags exist. -/
theorem render_structure_witness :
    "Tags:".toList ∈ explorerRenderContent renderWitnessState ↔
      renderWitnessState.tags ≠ [] :=
  (render_structure renderWitnessState rfl).2.2.1

theorem nlookup_mem {β : Type} :
    ∀ (l : List (Nat × β)) (q : Nat) (r : β), nlookup l q = some r → (q, r) ∈ l := by
  intro l
  induction l with
  | nil => intro q r h; cases h
  | cons p rest ih =>
    intro q r h
    obtain ⟨k0, v0⟩ := p
    have hstep : nlookup ((k0, v0) :: rest) q = if q = k0 then some v0 else nlookup rest q :=
      rfl
    rw [hstep] at h
    by_cases hq : q = k0
    · rw [if_pos hq] at h
      cases h
      subst hq
      simp
    · rw [if_neg hq] at h
      exact List.mem_cons_of_mem _ (ih q r h)

theorem setNoteNotebookGuid_eq (st : ExpState) (nid : Nat) (n : NodeRec)
    (note : Note) (title g0 g : List Char)
    (h : nlookup st.nodes nid = some n) (hdata : n.data = .noteData note title g0) :
    setNoteNotebookGuid st nid g =
      { st with nodes := nset st.nodes nid { n with data := .noteData note title g } } := by
  unfold setNoteNotebookGuid
  rw [h]
  dsimp only
  rw [hdata]

theorem removeChildOp_eq (st : ExpState) (pid cid : Nat) (p : NodeRec)
    (hp : nlookup st.nodes pid = some p) :
    removeChildOp st pid cid =
      { st with nodes := nset st.nodes pid { p with children := p.children.erase cid } } := by
  unfold removeChildOp
  rw [hp]

theorem addChildOp_eq (st : ExpState) (pid cid : Nat) (c pr : NodeRec)
    (hc : nlookup st.nodes cid = some c)
    (hp : nlookup (nset st.nodes cid { c with parent := some pid }) pid = some pr) :
    addChildOp st pid cid =
      { st with nodes := (nset (nset st.nodes cid { c with parent := some pid }) pid
          { pr with children := pr.children ++ [cid] }) } := by
  unfold addChildOp
  rw [hc]
  dsimp only
  rw [hp]

theorem addModified_facts (st : ExpState) (nid : Nat) :
    nid ∈ (addModified st nid).modifiedNodes ∧
    (addModified st nid).nodes = st.nodes ∧
    (addModified st nid).buffer = st.buffer := by
  unfold addModified
  by_cases h : nid ∈ st.modifiedNodes
  · rw [if_pos h]
    exact ⟨h, rfl, rfl⟩
  · rw [if_neg h]
    exact ⟨by simp, rfl, rfl⟩

theorem addModified_nodup (st : ExpState) (nid : Nat)
    (h : st.modifiedNodes.Nodup) : (addModified st nid).modifiedNodes.Nodup := by
  unfold addModified
  by_cases hm : nid ∈ st.modifiedNodes
  · rw [if_pos hm]
    exact h
  · rw [if_neg hm]
    dsimp only
    rw [List.nodup_append]
    refine ⟨h, List.nodup_singleton _, ?_⟩
    intro a ha1 ha2
    simp only [List.mem_singleton] at ha2
    subst ha2
    exact hm ha1

theorem addModified_mono (st : ExpState) (nid q : Nat)
    (h : q ∈ st.modifiedNodes) : q ∈ (addModified st nid).modifiedNodes := by
  unfold addModified
  by_cases hm : nid ∈ st.modifiedNodes
  · rw [if_pos hm]
    exact h
  · rw [if_neg hm]
    simp [h]

theorem registerNode_modified (st : ExpState) (nid : Nat) :
    (registerNode st nid).modifiedNodes = st.modifiedNodes := by
  unfold registerNode
  cases h : nlookup st.nodes nid with
  | none => rfl
  | some n => rfl

theorem setNodeExpanded_modified (st : ExpState) (nid : Nat) (b : Bool) :
    (setNodeExpanded st nid b).modifiedNodes = st.modifiedNodes := by
  unfold setNodeExpanded
  cases h : nlookup st.nodes nid with
  | none => rfl
  | some n => rfl

theorem setNodeLoaded_modified (st : ExpState) (nid : Nat) :
    (setNodeLoaded st nid).modifiedNodes = st.modifiedNodes := by
  unfold setNodeLoaded
  cases h : nlookup st.nodes nid with
  | none => rfl
  | some n =>
    dsimp only
    cases hd : n.data <;> rfl

theorem addChildOp_modified (st : ExpState) (pid cid : Nat) :
    (addChildOp st pid cid).modifiedNodes = st.modifiedNodes := by
  unfold addChildOp
  cases h : nlookup st.nodes cid with
  | none => rfl
  | some c =>
    dsimp only
    cases h2 : nlookup (nset st.nodes cid { c with parent := some pid }) pid with
    | none => rfl
    | some p => rfl

theorem removeChildOp_modified (st : ExpState) (pid cid : Nat) :
    (removeChildOp st pid cid).modifiedNodes = st.modifiedNodes := by
  unfold removeChildOp
  cases h : nlookup st.nodes pid with
  | none => rfl
  | some p => rfl

theorem setNoteNotebookGuid_modified (st : ExpState) (nid : Nat) (g : List Char) :
    (setNoteNotebookGuid st nid g).modifiedNodes = st.modifiedNodes := by
  unfold setNoteNotebookGuid
  cases h : nlookup st.nodes nid with
  | none => rfl
  | some n =>
    dsimp only
    cases hd : n.data <;> rfl

theorem addNoteTo_modified (st : ExpState) (pid : Nat) (note : Note) :
    (addNoteTo st pid note).modifiedNodes = st.modifiedNodes := by
  unfold addNoteTo
  cases h : nlookup st.nodes pid with
  | none => rfl
  | some p =>
    dsimp only
    rw [addChildOp_modified, registerNode_modified]

theorem addNoteTo_fold_modified (notes : List Note) :
    ∀ (st : ExpState) (pid : Nat),
      ((notes.foldl (fun s note => addNoteTo s pid note) st).modifiedNodes =
        st.modifiedNodes) := by
  induction notes with
  | nil => intro st pid; rfl
  | cons note rest ih =>
    intro st pid
    simp only [List.foldl_cons]
    rw [ih, addNoteTo_modified]

theorem notebookExpand_modified (oracle : List Char → List Note) (st : ExpState)
    (nid : Nat) : (notebookExpand oracle st nid).modifiedNodes = st.modifiedNodes := by
  unfold notebookExpand
  cases h : nlookup st.nodes nid with
  | none => rfl
  | some n =>
    dsimp only
    cases hd : n.data with
    | noteData a b c => rw [setNodeExpanded_modified]
    | tagData a b c => rw [setNodeExpanded_modified]
    | notebookData nb name loaded =>
      dsimp only
      cases loaded with
      | true =>
        rw [if_pos rfl, setNodeExpanded_modified]
      | false =>
        rw [if_neg (by simp), setNodeExpanded_modified, setNodeLoaded_modified,
          addNoteTo_fold_modified]

theorem tagExpand_modified (oracle : List Char → List Note) (st : ExpState)
    (nid : Nat) : (tagExpand oracle st nid).modifiedNodes = st.modifiedNodes := by
  unfold tagExpand
  cases h : nlookup st.nodes nid with
  | none => rfl
  | some n =>
    dsimp only
    cases hd : n.data with
    | noteData a b c => rw [setNodeExpanded_modified]
    | notebookData a b c => rw [setNodeExpanded_modified]
    | tagData t name loaded =>
      dsimp only
      cases loaded with
      | true =>
        rw [if_pos rfl, setNodeExpanded_modified]
      | false =>
        rw [if_neg (by simp), setNodeExpanded_modified, setNodeLoaded_modified,
          addNoteTo_fold_modified]


theorem gnpLoop_congr (st st2 : ExpState) (hbuf : st2.buffer = st.buffer)
    (hreg : st2.registry = st.registry)
    (hkinds : ∀ q, (nlookup st2.nodes q).map NodeRec.isNote =
      (nlookup st.nodes q).map NodeRec.isNote) :
    ∀ r, gnpLoop st2 r = gnpLoop st r := by
  intro r
  induction r with
  | zero => rfl
  | succ r ih =>
    unfold gnpLoop
    have hb : bufLine st2 (r + 1) = bufLine st (r + 1) := by
      unfold bufLine
      rw [hbuf]
    rw [hb]
    cases hk : getNodeKeyL (bufLine st (r + 1)) with
    | none => exact ih
    | some key =>
      dsimp only
      have hg : getNode st2 key = getNode st key := by
        unfold getNode
        rw [hreg]
      rw [hg]
      cases hn : getNode st key with
      | none => rfl
      | some nid =>
        dsimp only
        have hq := hkinds nid
        cases h1 : nlookup st2.nodes nid with
        | none =>
          cases h2 : nlookup st.nodes nid with
          | none => rfl
          | some n =>
            rw [h1, h2] at hq
            simp at hq
        | some n2 =>
          cases h2 : nlookup st.nodes nid with
          | none =>
            rw [h1, h2] at hq
            simp at hq
          | some n =>
            rw [h1, h2] at hq
            have heq : n2.isNote = n.isNote := by simpa using hq
            dsimp only
            rw [heq]
            by_cases hin : n.isNote = true
            · rw [if_pos hin, if_pos hin, ih]
            · rw [if_neg hin, if_neg hin]

theorem getNodeParent_congr (st st2 : ExpState) (hbuf : st2.buffer = st.buffer)
    (hreg : st2.registry = st.registry)
    (hkinds : ∀ q, (nlookup st2.nodes q).map NodeRec.isNote =
      (nlookup st.nodes q).map NodeRec.isNote) :
    ∀ r, getNodeParent st2 r = getNodeParent st r := by
  intro r
  unfold getNodeParent
  have hb : bufLine st2 r = bufLine st r := by
    unfold bufLine
    rw [hbuf]
  rw [hb]
  cases hk : getNodeKeyL (bufLine st r) with
  | none => rfl
  | some key =>
    dsimp only
    have hg : getNode st2 key = getNode st key := by
      unfold getNode
      rw [hreg]
    rw [hg]
    cases hn : getNode st key with
    | none => rfl
    | some nid =>
      dsimp only
      have hq := hkinds nid
      cases h1 : nlookup st2.nodes nid with
      | none =>
        cases h2 : nlookup st.nodes nid with
        | none => rfl
        | some n =>
          rw [h1, h2] at hq
          simp at hq
      | some n2 =>
        cases h2 : nlookup st.nodes nid with
        | none =>
          rw [h1, h2] at hq
          simp at hq
        | some n =>
          rw [h1, h2] at hq
          have heq : n2.isNote = n.isNote := by simpa using hq
          dsimp only
          rw [heq]
          by_cases hin : n.isNote = true
          · rw [if_pos hin, if_pos hin, gnpLoop_congr st st2 hbuf hreg hkinds r]
          · rw [if_neg hin, if_neg hin]

theorem gnpLoop_finds (st : ExpState) (r2 pid : Nat) (hr2pos : 1 ≤ r2)
    (hnn : rowNonNote st r2 pid) :
    ∀ row, r2 ≤ row → (∀ r3, r2 < r3 → r3 ≤ row → rowSkippable st r3) →
      gnpLoop st row = some pid := by
  intro row
  induction row with
  | zero => intro h _; omega
  | succ r ih =>
    intro hle hskip
    by_cases he : r2 = r + 1
    · obtain ⟨k, n, hk, hg, hn, hin⟩ := hnn
      subst he
      unfold gnpLoop
      rw [hk]
      dsimp only
      rw [hg]
      dsimp only
      rw [hn]
      dsimp only
      rw [hin]
      simp
    · have hr2r : r2 ≤ r := by omega
      have hsk := hskip (r + 1) (by omega) (le_refl _)
      unfold gnpLoop
      rcases hsk with hnone | ⟨k, nid, n, hk, hg, hn, hin⟩
      · rw [hnone]
        exact ih hr2r (fun r3 h1 h2 => hskip r3 h1 (by omega))
      · rw [hk]
        dsimp only
        rw [hg]
        dsimp only
        rw [hn]
        dsimp only
        rw [hin, if_pos rfl]
        exact ih hr2r (fun r3 h1 h2 => hskip r3 h1 (by omega))

theorem nodeAdapt_note (n : NodeRec) (note : Note) (title nbg : List Char)
    (line : List Char) (hd : n.data = .noteData note title nbg) :
    nodeAdapt n line =
      ((noteAdapt title line).1,
        { n with data := .noteData note (noteAdapt title line).2 nbg }) := by
  unfold nodeAdapt
  rw [hd]

/-- The applyChanges row iteration, reduced on a row holding a registered
note node whose parent is a notebook node: the node adapts, then the upward
scan decides between the not-moved and the moved continuation. -/
theorem applyStep_note_eq (oracle : List Char → List Note) (st : ExpState) (row : Nat)
    (key : List Char) (nid oldPid : Nat) (n oldP : NodeRec)
    (note : Note) (title nbg : List Char)
    (hkey : getNodeKeyL (bufLine st row) = some key)
    (hreg : getNode st key = some nid)
    (hnode : nlookup st.nodes nid = some n)
    (hdata : n.data = .noteData note title nbg)
    (hpar : n.parent = some oldPid)
    (holdP : nlookup st.nodes oldPid = some oldP)
    (holdPnb : oldP.isNotebook = true)
    (hone : oldPid ≠ nid) :
    applyStep oracle st row =
      (if getNodeParent
          { st with nodes := (nset st.nodes nid
            { n with data := .noteData note (noteAdapt title (bufLine st row)).2 nbg }) }
          row = some oldPid then
        .ok (if (noteAdapt title (bufLine st row)).1 then
          addModified
            { st with nodes := (nset st.nodes nid
              { n with data := .noteData note (noteAdapt title (bufLine st row)).2 nbg }) }
            nid
        else
          { st with nodes := (nset st.nodes nid
            { n with data := .noteData note (noteAdapt title (bufLine st row)).2 nbg }) })
      else
        match getNodeParent
          { st with nodes := (nset st.nodes nid
            { n with data := .noteData note (noteAdapt title (bufLine st row)).2 nbg }) }
          row with
        | none => Except.error PyErr.noneAttr
        | some pid =>
          match nlookup (nset st.nodes nid
            { n with data := .noteData note (noteAdapt title (bufLine st row)).2 nbg })
            pid with
          | none => Except.error PyErr.noneAttr
          | some p =>
            match p.data with
            | NodeData.notebookData nb _ _ =>
              Except.ok (addModified (addChildOp (removeChildOp
                (notebookExpand oracle
                  (setNoteNotebookGuid
                    { st with nodes := (nset st.nodes nid
                      { n with
                        data := .noteData note (noteAdapt title (bufLine st row)).2 nbg }) }
                    nid nb.guid)
                  pid)
                oldPid nid) pid nid) nid)
            | _ => Except.error PyErr.attrErr) := by
  unfold applyStep
  rw [hkey]
  dsimp only
  rw [hreg]
  dsimp only
  rw [hnode]
  dsimp only
  rw [nodeAdapt_note n note title nbg _ hdata]
  dsimp only
  dsimp only [NodeRec.isNote]
  rw [if_pos rfl]
  rw [hpar]
  dsimp only
  rw [nlookup_nset, if_neg hone, holdP]
  dsimp only
  rw [holdPnb, if_pos rfl]

theorem getNodeParent_adapted (st : ExpState) (row r2 : Nat) (key : List Char)
    (nid pid : Nat) (n n1 : NodeRec)
    (hkey : getNodeKeyL (bufLine st row) = some key)
    (hreg : getNode st key = some nid)
    (hnode : nlookup st.nodes nid = some n)
    (hnote : n.isNote = true)
    (hn1 : n1.isNote = true)
    (hr2 : 1 ≤ r2) (hr2row : r2 ≤ row)
    (hnn : rowNonNote st r2 pid)
    (hskip : ∀ r3, r2 < r3 → r3 ≤ row → rowSkippable st r3) :
    getNodeParent { st with nodes := nset st.nodes nid n1 } row = some pid := by
  have hkinds : ∀ q, (nlookup (nset st.nodes nid n1) q).map NodeRec.isNote =
      (nlookup st.nodes q).map NodeRec.isNote := by
    intro q
    rw [nlookup_nset]
    by_cases hq : q = nid
    · subst hq
      rw [if_pos rfl, hnode]
      simp [hnote, hn1]
    · rw [if_neg hq]
  rw [getNodeParent_congr st { st with nodes := nset st.nodes nid n1 } rfl rfl hkinds row]
  unfold getNodeParent
  rw [hkey]
  dsimp only
  rw [hreg]
  dsimp only
  rw [hnode]
  dsimp only
  rw [hnote, if_pos rfl]
  exact gnpLoop_finds st r2 pid hr2 hnn row hr2row hskip


/-- The moved continuation of the row iteration, over an arbitrary state
already carrying the updated notebookGuid on the note node: expanding the
new parent, unlinking from the old parent and appending under the new
parent. -/
theorem moved_chain_facts (oracle : List Char → List Note) (stB : ExpState)
    (nid oldPid pid : Nat) (n2 oldP p : NodeRec)
    (nb : Notebook) (pname : List Char) (ploaded : Bool)
    (hn2 : nlookup stB.nodes nid = some n2)
    (holdB : nlookup stB.nodes oldPid = some oldP)
    (hpB : nlookup stB.nodes pid = some p)
    (hpdata : p.data = .notebookData nb pname ploaded)
    (hpn : pid ≠ nid) (hone : oldPid ≠ nid) (hmo : oldPid ≠ pid)
    (hnidlt : nid < stB.nextId) (holdlt : oldPid < stB.nextId)
    (hpidlt : pid < stB.nextId) :
    (∃ nr, nlookup (addChildOp (removeChildOp (notebookExpand oracle stB pid)
        oldPid nid) pid nid).nodes nid = some nr ∧
      nr.data = n2.data ∧ nr.parent = some pid) ∧
    (∃ oldr, nlookup (addChildOp (removeChildOp (notebookExpand oracle stB pid)
        oldPid nid) pid nid).nodes oldPid = some oldr ∧
      oldr.children = oldP.children.erase nid) ∧
    (∃ pr2 pre, nlookup (addChildOp (removeChildOp (notebookExpand oracle stB pid)
        oldPid nid) pid nid).nodes pid = some pr2 ∧
      pr2.children = pre ++ [nid]) ∧
    (addChildOp (removeChildOp (notebookExpand oracle stB pid) oldPid nid)
      pid nid).modifiedNodes = stB.modifiedNodes := by
  obtain ⟨pother, ⟨p3, hp3look, _, hp3data, _, _, _, _⟩, pmod, pbuf⟩ :=
    notebookExpand_props oracle stB pid p nb pname ploaded hpB hpdata hpidlt
  have holdP3 : nlookup (notebookExpand oracle stB pid).nodes oldPid = some oldP := by
    rw [pother oldPid hmo holdlt]
    exact holdB
  have hst4 := removeChildOp_eq (notebookExpand oracle stB pid) oldPid nid oldP holdP3
  have hlookn2 : nlookup (removeChildOp (notebookExpand oracle stB pid)
      oldPid nid).nodes nid = some n2 := by
    rw [hst4]
    dsimp only
    rw [nlookup_nset, if_neg (fun he => hone he.symm)]
    rw [pother nid (fun he => hpn he.symm) hnidlt]
    exact hn2
  have hlookp5 : nlookup (nset (removeChildOp (notebookExpand oracle stB pid)
      oldPid nid).nodes nid { n2 with parent := some pid }) pid = some p3 := by
    rw [nlookup_nset, if_neg hpn, hst4]
    dsimp only
    rw [nlookup_nset, if_neg (fun he => hmo he.symm)]
    exact hp3look
  have hst5 := addChildOp_eq (removeChildOp (notebookExpand oracle stB pid) oldPid nid)
    pid nid n2 p3 hlookn2 hlookp5
  refine ⟨⟨{ n2 with parent := some pid }, ?_, rfl, rfl⟩,
    ⟨{ oldP with children := oldP.children.erase nid }, ?_, rfl⟩,
    ⟨{ p3 with children := p3.children ++ [nid] }, p3.children, ?_, rfl⟩, ?_⟩
  · rw [hst5]
    dsimp only
    rw [nlookup_nset, if_neg (fun he => hpn he.symm), nlookup_nset, if_pos rfl]
  · rw [hst5]
    dsimp only
    rw [nlookup_nset, if_neg hmo, nlookup_nset, if_neg hone, hst4]
    dsimp only
    rw [nlookup_nset, if_pos rfl]
  · rw [hst5]
    dsimp only
    rw [nlookup_nset, if_pos rfl]
  · rw [hst5]
    dsimp only
    rw [hst4]
    dsimp only
    rw [notebookExpand_modified]

/-- C1: on a buffer row holding a registered note node whose current parent
is a notebook node, when the nearest row at or above holding a non-note node
(all rows between resolving to notes or to nothing) holds a notebook node
different from the current parent, the row iteration copies the guid of that
notebook onto the note node, removes the node from the children of the old
parent, appends it under the new parent and records it in modifiedNodes;
when that nearest node is the current parent, the parent links are left
unchanged. -/
theorem reparenting_synchronized
    (oracle : List Char → List Note) (st : ExpState) (row r2 : Nat)
    (key : List Char) (nid oldPid pid : Nat) (n oldP p : NodeRec)
    (note : Note) (title nbg : List Char)
    (nb : Notebook) (pname : List Char) (ploaded : Bool)
    (hkey : getNodeKeyL (bufLine st row) = some key)
    (hreg : getNode st key = some nid)
    (hnode : nlookup st.nodes nid = some n)
    (hdata : n.data = .noteData note title nbg)
    (hpar : n.parent = some oldPid)
    (holdP : nlookup st.nodes oldPid = some oldP)
    (holdPnb : oldP.isNotebook = true)
    (hr2 : 1 ≤ r2) (hr2row : r2 ≤ row)
    (hnn : rowNonNote st r2 pid)
    (hskip : ∀ r3, r2 < r3 → r3 ≤ row → rowSkippable st r3)
    (hplook : nlookup st.nodes pid = some p)
    (hpdata : p.data = .notebookData nb pname ploaded)
    (hwf : ∀ pr ∈ st.nodes, pr.1 < st.nextId)
    (hnd : oldP.children.Nodup) :
    (pid ≠ oldPid →
      ∃ stf, applyStep oracle st row = .ok stf ∧
        (∃ nr, nlookup stf.nodes nid = some nr ∧
          nr.data = .noteData note (noteAdapt title (bufLine st row)).2 nb.guid ∧
          nr.parent = some pid) ∧
        (∃ oldr, nlookup stf.nodes oldPid = some oldr ∧
          oldr.children = oldP.children.erase nid ∧ nid ∉ oldr.children) ∧
        (∃ pr2 pre, nlookup stf.nodes pid = some pr2 ∧ pr2.children = pre ++ [nid]) ∧
        nid ∈ stf.modifiedNodes) ∧
    (pid = oldPid →
      ∃ stf, applyStep oracle st row = .ok stf ∧
        (∃ nr, nlookup stf.nodes nid = some nr ∧ nr.parent = n.parent) ∧
        nlookup stf.nodes oldPid = some oldP) := by
  have hone : oldPid ≠ nid := by
    intro he
    rw [he, hnode] at holdP
    cases holdP
    unfold NodeRec.isNotebook at holdPnb
    rw [hdata] at holdPnb
    simp at holdPnb
  have hpn : pid ≠ nid := by
    intro he
    rw [he, hnode] at hplook
    cases hplook
    rw [hdata] at hpdata
    exact NodeData.noConfusion hpdata
  have hstep := applyStep_note_eq oracle st row key nid oldPid n oldP note title nbg
    hkey hreg hnode hdata hpar holdP holdPnb hone
  have hnote : n.isNote = true := by
    unfold NodeRec.isNote
    rw [hdata]
  have hgp : getNodeParent
      { st with nodes := (nset st.nodes nid
        { n with data := .noteData note (noteAdapt title (bufLine st row)).2 nbg }) }
      row = some pid :=
    getNodeParent_adapted st row r2 key nid pid n _ hkey hreg hnode hnote rfl
      hr2 hr2row hnn hskip
  have hnidlt : nid < st.nextId := hwf _ (nlookup_mem _ _ _ hnode)
  have hpidlt : pid < st.nextId := hwf _ (nlookup_mem _ _ _ hplook)
  have holdlt : oldPid < st.nextId := hwf _ (nlookup_mem _ _ _ holdP)
  have hlookn1 : nlookup (nset st.nodes nid
      { n with data := .noteData note (noteAdapt title (bufLine st row)).2 nbg }) nid =
      some { n with data := .noteData note (noteAdapt title (bufLine st row)).2 nbg } :=
    nlookup_nset_self _ _ _
  have hst2 := setNoteNotebookGuid_eq
    { st with nodes := (nset st.nodes nid
      { n with data := .noteData note (noteAdapt title (bufLine st row)).2 nbg }) }
    nid { n with data := .noteData note (noteAdapt title (bufLine st row)).2 nbg }
    note (noteAdapt title (bufLine st row)).2 nbg nb.guid hlookn1 rfl
  constructor
  · intro hmoved
    have hcond : ¬(getNodeParent
        { st with nodes := (nset st.nodes nid
          { n with data := .noteData note (noteAdapt title (bufLine st row)).2 nbg }) }
        row = some oldPid) := by
      rw [hgp]
      intro hc
      exact hmoved (Option.some.inj hc)
    have happly : applyStep oracle st row =
        .ok (addModified (addChildOp (removeChildOp
          (notebookExpand oracle
            (setNoteNotebookGuid
              { st with nodes := (nset st.nodes nid
                { n with
                  data := .noteData note (noteAdapt title (bufLine st row)).2 nbg }) }
              nid nb.guid)
            pid)
          oldPid nid) pid nid) nid) := by
      rw [hstep, if_neg hcond, hgp]
      dsimp only
      rw [nlookup_nset, if_neg hpn, hplook]
      dsimp only
      rw [hpdata]
    have hn2B : nlookup (setNoteNotebookGuid
        { st with nodes := (nset st.nodes nid
          { n with data := .noteData note (noteAdapt title (bufLine st row)).2 nbg }) }
        nid nb.guid).nodes nid =
        some { { n with
            data := .noteData note (noteAdapt title (bufLine st row)).2 nbg } with
          data := .noteData note (noteAdapt title (bufLine st row)).2 nb.guid } := by
      rw [hst2]
      dsimp only
      rw [nlookup_nset, if_pos rfl]
    have holdB : nlookup (setNoteNotebookGuid
        { st with nodes := (nset st.nodes nid
          { n with data := .noteData note (noteAdapt title (bufLine st row)).2 nbg }) }
        nid nb.guid).nodes oldPid = some oldP := by
      rw [hst2]
      dsimp only
      rw [nlookup_nset, if_neg hone, nlookup_nset, if_neg hone]
      exact holdP
    have hpB : nlookup (setNoteNotebookGuid
        { st with nodes := (nset st.nodes nid
          { n with data := .noteData note (noteAdapt title (bufLine st row)).2 nbg }) }
        nid nb.guid).nodes pid = some p := by
      rw [hst2]
      dsimp only
      rw [nlookup_nset, if_neg hpn, nlookup_nset, if_neg hpn]
      exact hplook
    have hnextB : (setNoteNotebookGuid
        { st with nodes := (nset st.nodes nid
          { n with data := .noteData note (noteAdapt title (bufLine st row)).2 nbg }) }
        nid nb.guid).nextId = st.nextId := by
      rw [hst2]
    obtain ⟨⟨nr, hnr, hnrdata, hnrpar⟩, ⟨oldr, holdr, holdrch⟩, hpr, hmodB⟩ :=
      moved_chain_facts oracle _ nid oldPid pid _ oldP p nb pname ploaded
        hn2B holdB hpB hpdata hpn hone (fun he => hmoved he.symm)
        (by rw [hnextB]; exact hnidlt) (by rw [hnextB]; exact holdlt)
        (by rw [hnextB]; exact hpidlt)
    refine ⟨_, happly, ?_, ?_, ?_, ?_⟩
    · refine ⟨nr, ?_, ?_, hnrpar⟩
      · rw [(addModified_facts _ nid).2.1]
        exact hnr
      · rw [hnrdata]
    · refine ⟨oldr, ?_, holdrch, ?_⟩
      · rw [(addModified_facts _ nid).2.1]
        exact holdr
      · rw [holdrch]
        exact hnd.not_mem_erase
    · obtain ⟨pr2, pre, hpr2, hpr2ch⟩ := hpr
      refine ⟨pr2, pre, ?_, hpr2ch⟩
      rw [(addModified_facts _ nid).2.1]
      exact hpr2
    · exact (addModified_facts _ nid).1
  · intro heq
    have hcond : getNodeParent
        { st with nodes := (nset st.nodes nid
          { n with data := .noteData note (noteAdapt title (bufLine st row)).2 nbg }) }
        row = some oldPid := by
      rw [hgp, heq]
    have happly : applyStep oracle st row =
        .ok (if (noteAdapt title (bufLine st row)).1 then
          addModified
            { st with nodes := (nset st.nodes nid
              { n with data := .noteData note (noteAdapt title (bufLine st row)).2 nbg }) }
            nid
        else
          { st with nodes := (nset st.nodes nid
            { n with
              data := .noteData note (noteAdapt title (bufLine st row)).2 nbg }) }) := by
      rw [hstep, if_pos hcond]
    refine ⟨_, happly, ?_, ?_⟩
    · refine ⟨{ n with data := .noteData note (noteAdapt title (bufLine st row)).2 nbg },
        ?_, rfl⟩
      by_cases hb : (noteAdapt title (bufLine st row)).1 = true
      · rw [if_pos hb, (addModified_facts _ nid).2.1]
        exact nlookup_nset_self _ _ _
      · rw [if_neg hb]
        exact nlookup_nset_self _ _ _
    · by_cases hb : (noteAdapt title (bufLine st row)).1 = true
      · rw [if_pos hb, (addModified_facts _ nid).2.1]
        dsimp only
        rw [nlookup_nset, if_neg hone]
        exact holdP
      · rw [if_neg hb]
        dsimp only
        rw [nlookup_nset, if_neg hone]
        exact holdP
/-- C1 witness: on the concrete state the note on row two is moved under the
notebook on row one: its guid is copied, the old parent loses the child, the
new parent gains it last, and the note lands in modifiedNodes. -/
theorem reparenting_synchronized_witness :
    ∃ stf, applyStep (fun _ => []) c1State 2 = .ok stf ∧
      (∃ nr, nlookup stf.nodes 0 = some nr ∧
        nr.data = .noteData ⟨"ng".toList, "T".toList, "og".toList⟩
          (noteAdapt "T".toList (bufLine c1State 2)).2 "pg".toList ∧
        nr.parent = some 2) ∧
      (∃ oldr, nlookup stf.nodes 1 = some oldr ∧
        oldr.children = [0].erase 0 ∧ 0 ∉ oldr.children) ∧
      (∃ pr2 pre, nlookup stf.nodes 2 = some pr2 ∧ pr2.children = pre ++ [0]) ∧
      0 ∈ stf.modifiedNodes :=
  (reparenting_synchronized (fun _ => []) c1State 2 1 ("nk".toList) 0 1 2
    c1Note c1OldNb c1NewNb ⟨"ng".toList, "T".toList, "og".toList⟩ "T".toList
    "og".toList ⟨"pg".toList, "New".toList⟩ "New".toList true
    rfl rfl rfl rfl rfl rfl rfl (by decide) (by decide)
    ⟨"pk".toList, c1NewNb, rfl, rfl, rfl, rfl⟩
    (by
      intro r3 h1 h2
      have h3 : r3 = 2 := by omega
      subst h3
      exact Or.inr ⟨"nk".toList, 0, c1Note, rfl, rfl, rfl, rfl⟩)
    rfl rfl (by decide) (by decide)).1 (by decide)

theorem applyStep_nodup (oracle : List Char → List Note) (st : ExpState) (row : Nat)
    (stf : ExpState) (hok : applyStep oracle st row = .ok stf)
    (hnd : st.modifiedNodes.Nodup) : stf.modifiedNodes.Nodup := by
  unfold applyStep at hok
  cases h1 : getNodeKeyL (bufLine st row) with
  | none =>
    rw [h1] at hok
    dsimp only at hok
    cases hok
    exact hnd
  | some key =>
    rw [h1] at hok
    dsimp only at hok
    cases h2 : getNode st key with
    | none =>
      rw [h2] at hok
      dsimp only at hok
      cases hok
    | some nid =>
      rw [h2] at hok
      dsimp only at hok
      cases h3 : nlookup st.nodes nid with
      | none =>
        rw [h3] at hok
        cases hok
      | some n =>
        rw [h3] at hok
        dsimp only at hok
        have hdone : (if (nodeAdapt n (bufLine st row)).1 = true then
            addModified
              { st with nodes := nset st.nodes nid (nodeAdapt n (bufLine st row)).2 } nid
          else
            { st with
              nodes :=
                nset st.nodes nid
                  (nodeAdapt n (bufLine st row)).2 }).modifiedNodes.Nodup := by
          by_cases hb2 : (nodeAdapt n (bufLine st row)).1 = true
          · rw [if_pos hb2]
            exact addModified_nodup _ _ hnd
          · rw [if_neg hb2]
            exact hnd
        by_cases hb : (nodeAdapt n (bufLine st row)).2.isNote = true
        · rw [if_pos hb] at hok
          cases h4 : (nodeAdapt n (bufLine st row)).2.parent with
          | none =>
            rw [h4] at hok
            dsimp only at hok
            cases hok
            exact hdone
          | some oldPid =>
            rw [h4] at hok
            dsimp only at hok
            cases h5 : nlookup
                (nset st.nodes nid (nodeAdapt n (bufLine st row)).2) oldPid with
            | none =>
              rw [h5] at hok
              cases hok
              exact hdone
            | some oldP =>
              rw [h5] at hok
              dsimp only at hok
              by_cases h6 : oldP.isNotebook = true
              · rw [if_pos h6] at hok
                by_cases h7 : getNodeParent
                    { st with
                      nodes := nset st.nodes nid (nodeAdapt n (bufLine st row)).2 }
                    row = some oldPid
                · rw [if_pos h7] at hok
                  cases hok
                  exact hdone
                · rw [if_neg h7] at hok
                  cases h8 : getNodeParent
                      { st with
                        nodes := nset st.nodes nid (nodeAdapt n (bufLine st row)).2 }
                      row with
                  | none =>
                    rw [h8] at hok
                    dsimp only at hok
                    cases hok
                  | some pid =>
                    rw [h8] at hok
                    dsimp only at hok
                    cases h9 : nlookup
                        (nset st.nodes nid (nodeAdapt n (bufLine st row)).2) pid with
                    | none =>
                      rw [h9] at hok
                      cases hok
                    | some p =>
                      rw [h9] at hok
                      dsimp only at hok
                      cases h10 : p.data with
                      | noteData a b c =>
                        rw [h10] at hok
                        dsimp only at hok
                        cases hok
                      | tagData a b c =>
                        rw [h10] at hok
                        dsimp only at hok
                        cases hok
                      | notebookData nb nbname nbloaded =>
                        rw [h10] at hok
                        dsimp only at hok
                        cases hok
                        apply addModified_nodup
                        rw [addChildOp_modified, removeChildOp_modified,
                          notebookExpand_modified, setNoteNotebookGuid_modified]
                        exact hnd
              · rw [if_neg h6] at hok
                cases hok
                exact hdone
        · rw [if_neg hb] at hok
          cases hok
          exact hdone

theorem foldl_applyStep_nodup (oracle : List Char → List Note) :
    ∀ (l : List Nat) (s stf : ExpState),
      s.modifiedNodes.Nodup →
      l.foldlM (fun s2 row => applyStep oracle s2 row) s = .ok stf →
      stf.modifiedNodes.Nodup := by
  intro l
  induction l with
  | nil =>
    intro s stf hnd hok
    cases hok
    exact hnd
  | cons a rest ih =>
    intro s stf hnd hok
    rw [List.foldlM_cons] at hok
    cases hfa : applyStep oracle s a with
    | error e =>
      rw [hfa] at hok
      cases hok
    | ok s2 =>
      rw [hfa] at hok
      have hbind : (Except.ok s2 >>= fun s3 =>
          rest.foldlM (fun s4 row => applyStep oracle s4 row) s3) =
          rest.foldlM (fun s4 row => applyStep oracle s4 row) s2 := rfl
      rw [hbind] at hok
      exact ih s2 stf (applyStep_nodup oracle s a s2 hfa hnd) hok

theorem applyChanges_nodup (oracle : List Char → List Note) (st stf : ExpState)
    (hnd : st.modifiedNodes.Nodup) (hok : applyChanges oracle st = .ok stf) :
    stf.modifiedNodes.Nodup :=
  foldl_applyStep_nodup oracle (List.range st.buffer.length) st stf hnd hok

/-- C2: on a line matching the note pattern, NoteNode.adapt returns True and
replaces the stored title by the stripped parsed group exactly when the two
differ, and returns False leaving the title unchanged when they agree; on a
buffer row holding such a note node under a notebook parent, the row
iteration pushes the node on modifiedNodes exactly when adapt returned True
(and always when the node moved to a different parent), and applyChanges
never records the same node twice when modifiedNodes started without
duplicates. -/
theorem renames_synchronized
    (oracle : List Char → List Note) (st : ExpState) (row r2 : Nat)
    (key : List Char) (nid oldPid pid : Nat) (n oldP p : NodeRec)
    (note : Note) (title nbg : List Char)
    (nb : Notebook) (pname : List Char) (ploaded : Bool)
    (hkey : getNodeKeyL (bufLine st row) = some key)
    (hreg : getNode st key = some nid)
    (hnode : nlookup st.nodes nid = some n)
    (hdata : n.data = .noteData note title nbg)
    (hpar : n.parent = some oldPid)
    (holdP : nlookup st.nodes oldPid = some oldP)
    (holdPnb : oldP.isNotebook = true)
    (hr2 : 1 ≤ r2) (hr2row : r2 ≤ row)
    (hnn : rowNonNote st r2 pid)
    (hskip : ∀ r3, r2 < r3 → r3 ≤ row → rowSkippable st r3)
    (hplook : nlookup st.nodes pid = some p)
    (hpdata : p.data = .notebookData nb pname ploaded) :
    (∀ (t l grp : List Char), noteAdaptTitleOf l = some grp →
      (pyStrip grp ≠ t → noteAdapt t l = (true, pyStrip grp)) ∧
      (pyStrip grp = t → noteAdapt t l = (false, t))) ∧
    (pid = oldPid →
      ∃ stf, applyStep oracle st row = .ok stf ∧
        (nid ∈ stf.modifiedNodes ↔
          ((noteAdapt title (bufLine st row)).1 = true ∨ nid ∈ st.modifiedNodes))) ∧
    (pid ≠ oldPid →
      ∃ stf, applyStep oracle st row = .ok stf ∧ nid ∈ stf.modifiedNodes) ∧
    (∀ stf : ExpState, st.modifiedNodes.Nodup → applyChanges oracle st = .ok stf →
      stf.modifiedNodes.Nodup) := by
  have hone : oldPid ≠ nid := by
    intro he
    rw [he, hnode] at holdP
    cases holdP
    unfold NodeRec.isNotebook at holdPnb
    rw [hdata] at holdPnb
    simp at holdPnb
  have hpn : pid ≠ nid := by
    intro he
    rw [he, hnode] at hplook
    cases hplook
    rw [hdata] at hpdata
    exact NodeData.noConfusion hpdata
  have hstep := applyStep_note_eq oracle st row key nid oldPid n oldP note title nbg
    hkey hreg hnode hdata hpar holdP holdPnb hone
  have hnote : n.isNote = true := by
    unfold NodeRec.isNote
    rw [hdata]
  have hgp : getNodeParent
      { st with nodes := (nset st.nodes nid
        { n with data := .noteData note (noteAdapt title (bufLine st row)).2 nbg }) }
      row = some pid :=
    getNodeParent_adapted st row r2 key nid pid n _ hkey hreg hnode hnote rfl
      hr2 hr2row hnn hskip
  refine ⟨?_, ?_, ?_, ?_⟩
  · intro t l grp hgrp
    constructor
    · intro hne
      unfold noteAdapt
      rw [hgrp]
      dsimp only
      rw [if_pos (fun he => hne he.symm)]
    · intro heq
      unfold noteAdapt
      rw [hgrp]
      dsimp only
      rw [heq, if_neg (fun hne => hne rfl)]
  · intro heq
    have hcond : getNodeParent
        { st with nodes := (nset st.nodes nid
          { n with data := .noteData note (noteAdapt title (bufLine st row)).2 nbg }) }
        row = some oldPid := by
      rw [hgp, heq]
    have happly : applyStep oracle st row =
        .ok (if (noteAdapt title (bufLine st row)).1 then
          addModified
            { st with nodes := (nset st.nodes nid
              { n with data := .noteData note (noteAdapt title (bufLine st row)).2 nbg }) }
            nid
        else
          { st with nodes := (nset st.nodes nid
            { n with
              data := .noteData note (noteAdapt title (bufLine st row)).2 nbg }) }) := by
      rw [hstep, if_pos hcond]
    refine ⟨_, happly, ?_⟩
    by_cases hb : (noteAdapt title (bufLine st row)).1 = true
    · rw [if_pos hb]
      exact iff_of_true (addModified_facts _ nid).1 (Or.inl hb)
    · rw [if_neg hb]
      constructor
      · intro hm
        exact Or.inr hm
      · intro hm
        cases hm with
        | inl h => exact absurd h hb
        | inr h => exact h
  · intro hmoved
    have hcond : ¬(getNodeParent
        { st with nodes := (nset st.nodes nid
          { n with data := .noteData note (noteAdapt title (bufLine st row)).2 nbg }) }
        row = some oldPid) := by
      rw [hgp]
      intro hc
      exact hmoved (Option.some.inj hc)
    have happly : applyStep oracle st row =
        .ok (addModified (addChildOp (removeChildOp
          (notebookExpand oracle
            (setNoteNotebookGuid
              { st with nodes := (nset st.nodes nid
                { n with
                  data := .noteData note (noteAdapt title (bufLine st row)).2 nbg }) }
              nid nb.guid)
            pid)
          oldPid nid) pid nid) nid) := by
      rw [hstep, if_neg hcond, hgp]
      dsimp only
      rw [nlookup_nset, if_neg hpn, hplook]
      dsimp only
      rw [hpdata]
    exact ⟨_, happly, (addModified_facts _ nid).1⟩
  · intro stf hnd hok
    exact applyChanges_nodup oracle st stf hnd hok

/-- C2 witness: on the concrete line the adapt scanner reports a rename to
the stripped title, and on the concrete moved row the note lands in
modifiedNodes. -/
theorem renames_synchronized_witness :
    noteAdapt "Old".toList " New n[k]".toList = (true, "New".toList) ∧
    (∃ stf, applyStep (fun _ => []) c1State 2 = .ok stf ∧ 0 ∈ stf.modifiedNodes) := by
  have h := renames_synchronized (fun _ => []) c1State 2 1 ("nk".toList) 0 1 2
    c1Note c1OldNb c1NewNb ⟨"ng".toList, "T".toList, "og".toList⟩ "T".toList
    "og".toList ⟨"pg".toList, "New".toList⟩ "New".toList true
    rfl rfl rfl rfl rfl rfl rfl (by decide) (by decide)
    ⟨"pk".toList, c1NewNb, rfl, rfl, rfl, rfl⟩
    (by
      intro r3 h1 h2
      have h3 : r3 = 2 := by omega
      subst h3
      exact Or.inr ⟨"nk".toList, 0, c1Note, rfl, rfl, rfl, rfl⟩)
    rfl rfl
  exact ⟨(h.1 "Old".toList " New n[k]".toList "New ".toList rfl).1 (by decide),
    h.2.2.1 (by decide)⟩
